import Mathlib

/-!
# Verification of the provably-fair prediction game (`src/app.js`)

This file gives a shallow embedding of the deterministic outcome and
economics engine of the browser game and proves the specification claims
about it.

Conventions of the embedding:

* JavaScript numbers that the program keeps as exact decimals (monetary
  amounts, multipliers) are modelled as rationals `ℚ`.  The program's
  idiom `Number(x.toFixed(6))` (round to six decimal places) is modelled
  by `round6`, rounding half away from zero upwards on the nonnegative
  values the program produces.
* `Math.round` is modelled by `jround` (`⌊x + 1/2⌋`, JavaScript's
  round-half-up toward positive infinity).
* The Web Crypto primitives (`HMAC-SHA256`, `SHA-256`) are not part of
  the repository; they enter the embedding as abstract functions.  The
  digest is a byte list (`List ℕ`, each entry intended `< 256`).
* React `useState` cells become fields of an explicit `GameState`
  record; the closures captured by `playRound`'s scheduled
  `finalizeRound` call become an explicit `PendingRound` snapshot, which
  is exactly what the JavaScript closure semantics give: `finalizeRound`
  reads the render-time values of `serverSeed`, `clientSeed`, `nonce`,
  `range`, `multiplier`, `baseBet`, `balance` and `status`, not the
  values at resolution time.
-/

namespace Game

/-- `TICKS = 1000`, the tick space of the game (`const TICKS = 1000`). -/
def TICKS : ℕ := 1000

/-- `MAX_HISTORY = 10`, capacity of the tick history buffer. -/
def MAX_HISTORY : ℕ := 10

/-- One rounding unit of the 6-decimal money grid, `10⁻⁶`. -/
def unit : ℚ := 1 / 1000000

/-- `Number(x.toFixed(6))`: round a (nonnegative) amount to six decimal
places, half up.  Every output is a multiple of `10⁻⁶`. -/
def round6 (x : ℚ) : ℚ := (⌊x * 1000000 + 1 / 2⌋ : ℚ) / 1000000

/-- JavaScript `Math.round`: round half up toward positive infinity. -/
def jround (x : ℚ) : ℤ := ⌊x + 1 / 2⌋

/-! ## CryptoPrimitives / OutcomeGenerator (`src/app.js` lines 47-67)

`getTickFromHash` converts the first four digest bytes to an unsigned
32-bit integer by arithmetic accumulation and maps it to `[0, 1000]`:

```js
const getTickFromHash = (hashBytes) => {
  let val = 0;
  for (let i = 0; i < 4; i++) { val = (val * 256) + hashBytes[i]; }
  const p = val / 4294967296;
  return Math.floor(p * 1001);
};
const generateResult = async (serverSeed, clientSeed, nonce) => {
  const data = `${clientSeed}:${nonce}`;
  const hashBytes = await hmacSha256(serverSeed, data);
  return getTickFromHash(hashBytes);
};
```
-/

/-- The accumulated 32-bit value: `val = val * 256 + hashBytes[i]` over the
first four bytes. -/
def accumVal (hashBytes : List ℕ) : ℕ :=
  (hashBytes.take 4).foldl (fun v b => v * 256 + b) 0

/-- `getTickFromHash`: normalize the first four bytes to `p ∈ [0,1)` and
return `Math.floor(p * 1001)`. -/
def getTickFromHash (hashBytes : List ℕ) : ℕ :=
  let val := accumVal hashBytes
  let p : ℚ := (val : ℚ) / 4294967296
  (⌊p * 1001⌋).toNat

/-- The HMAC message `` `${clientSeed}:${nonce}` `` (decimal nonce). -/
def hmacMessage (clientSeed : String) (nonce : ℕ) : String :=
  clientSeed ++ ":" ++ toString nonce

/-- `generateResult`, parameterized by the HMAC-SHA256 primitive
(`hmac key message = digest bytes`), which is supplied by Web Crypto and
is not part of the repository. -/
def generateResult (hmac : String → String → List ℕ)
    (serverSeed clientSeed : String) (nonce : ℕ) : ℕ :=
  getTickFromHash (hmac serverSeed (hmacMessage clientSeed nonce))

/-- The reference tick definition, stated from the specification's words
(§4.2): take the first 4 digest bytes as an unsigned 32-bit *big-endian*
integer `v = b₀·2²⁴ + b₁·2¹⁶ + b₂·2⁸ + b₃`, normalize `p = v / 2³²`, and
return `⌊p * 1001⌋`. -/
def referenceTick (hmac : String → String → List ℕ)
    (serverSeed clientSeed : String) (nonce : ℕ) : ℕ :=
  let digest := hmac serverSeed (hmacMessage clientSeed nonce)
  let b := fun i => digest.getD i 0
  let v : ℕ := b 0 * 2 ^ 24 + b 1 * 2 ^ 16 + b 2 * 2 ^ 8 + b 3
  (⌊((v : ℚ) / 2 ^ 32) * 1001⌋).toNat

/-! ## Economics (`src/app.js` lines 1105-1116)

```js
const multiplier = useMemo(() => {
  const size = Math.max(1, range.high - range.low);
  const probability = size / TICKS;
  if (probability <= 0) return 0;
  return Number((0.80 / probability).toFixed(6));
}, [range]);
const potentialPayout = useMemo(() => {
  const activeBet = status === 'won_streak' ? currentBet : baseBet;
  return Number((activeBet * multiplier).toFixed(6));
}, [currentBet, baseBet, multiplier, status]);
```

The revisions instantiate the edge constant at `0.80` (provably-fair
revision) and `0.85` (earlier revision); the specification directs that
it be treated as a configuration constant, so the formula is embedded
with `edge` as a parameter and the engine instantiates `edge = 0.80`. -/

/-- The band multiplier with the house-edge factor as a parameter:
`size = max(1, high - low)`, `probability = size / TICKS`, and
`round6 (edge / probability)` (0 when the probability is nonpositive). -/
def multiplierE (edge : ℚ) (low high : ℕ) : ℚ :=
  let size : ℚ := max 1 ((high : ℚ) - (low : ℚ))
  let probability := size / (TICKS : ℚ)
  if probability ≤ 0 then 0 else round6 (edge / probability)

/-- The engine's multiplier, edge constant `0.80`. -/
def multiplierOf (low high : ℕ) : ℚ := multiplierE (80 / 100) low high

/-- `potentialPayout` for a given stake: `round6 (stake * multiplier)`. -/
def payoutOf (mult stake : ℚ) : ℚ := round6 (stake * mult)

/-! ## RoundEngine state (`src/app.js` lines 1029-1102)

The React `useState` cells of the `App` component become the fields of
`GameState`.  The scheduled `setTimeout(() => finalizeRound(activeBet))`
closure of `playRound` is reified as a `PendingRound` snapshot: in the
source, `finalizeRound` is the constant of the render in which
`playRound` ran, so every state value it mentions (`serverSeed`,
`clientSeed`, `nonce`, `range`, `multiplier`, `baseBet`, `balance`,
`status`) is the value from that render, i.e. from stake time.
`consumedNonces` is a ghost field recording, per active seed pair, the
nonce passed to each `generateResult` call (the argument of the HMAC
message); it mirrors no mutable JS variable and is read by no operation. -/

/-- Round status: `'idle' | 'playing' | 'won_streak'`. -/
inductive Status where
  | idle
  | playing
  | wonStreak
deriving DecidableEq, Repr

/-- One entry of the `userBets` history (`{result, price, amount, payout,
range}`); `result` is true for a win entry. -/
structure BetEntry where
  result : Bool
  price : ℕ
  amount : ℚ
  payout : ℚ
  rangeLow : ℕ
  rangeHigh : ℕ
deriving DecidableEq, Repr

/-- The snapshot taken by `playRound` when it schedules `finalizeRound`:
the closure values of the scheduling render. -/
structure PendingRound where
  betAmount : ℚ
  serverSeed : String
  clientSeed : String
  nonce : ℕ
  rangeLow : ℕ
  rangeHigh : ℕ
  multiplier : ℚ
  baseBet : ℚ
  balance : ℚ
  statusAtPlay : Status
deriving DecidableEq, Repr

/-- The engine state: the `useState` cells of `App`, plus the reified
pending `finalizeRound` closure and the ghost `consumedNonces` list. -/
structure GameState where
  history : List ℕ
  balance : ℚ
  baseBet : ℚ
  currentBet : ℚ
  rangeLow : ℕ
  rangeHigh : ℕ
  status : Status
  lastResult : Option (Bool × ℕ)
  clientSeed : String
  serverSeed : String
  serverSeedHash : String
  nonce : ℕ
  prevServerSeed : Option String
  prevClientSeed : Option String
  prevNonceMax : ℕ
  userBets : List BetEntry
  sessionPnL : ℚ
  payError : Option String
  payoutError : Option String
  pending : Option PendingRound
  consumedNonces : List ℕ
deriving DecidableEq, Repr

namespace GameState

/-- The initial component state after the `init` effect ran
(`useEffect(..., [])`, lines 1057-1067): the `useState` defaults with
`serverSeed := s`, `serverSeedHash := sha256 s` and a randomized client
seed, where `s` and the client seed are random and `sha256` is the Web
Crypto digest, all three supplied as parameters. -/
def initState (sha256 : String → String) (hist : List ℕ)
    (seed clientSeed : String) : GameState where
  history := hist
  balance := 10000
  baseBet := 25
  currentBet := 25
  rangeLow := 420
  rangeHigh := TICKS
  status := .idle
  lastResult := none
  clientSeed := clientSeed
  serverSeed := seed
  serverSeedHash := sha256 seed
  nonce := 0
  prevServerSeed := none
  prevClientSeed := none
  prevNonceMax := 0
  userBets := []
  sessionPnL := 0
  payError := none
  payoutError := none
  pending := none
  consumedNonces := []

/-- `rotateSeed` (lines 1069-1081): move the current pair into the
revealed slot, install a fresh random seed `newSeed` with its hash, and
reset the nonce to 0.  The ghost `consumedNonces` restarts for the new
pair. -/
def rotateSeed (sha256 : String → String) (newSeed : String)
    (s : GameState) : GameState :=
  { s with
    prevServerSeed := some s.serverSeed
    prevClientSeed := some s.clientSeed
    prevNonceMax := s.nonce
    serverSeed := newSeed
    serverSeedHash := sha256 newSeed
    nonce := 0
    consumedNonces := [] }

/-- `setClientSeed` (wired at line 1397): replace the active client seed;
the nonce is untouched. -/
def setClientSeed (newSeed : String) (s : GameState) : GameState :=
  { s with clientSeed := newSeed }

/-- The active bet of the current render:
`status === 'won_streak' ? currentBet : baseBet`. -/
def activeBet (s : GameState) : ℚ :=
  if s.status = .wonStreak then s.currentBet else s.baseBet

/-- `playRound` (lines 1321-1346).  Validation failures (`activeBet <= 0`;
from idle, `balance < activeBet`) set only the error message.  On
success: from idle the wallet is debited by `activeBet` (rounded to six
places) and `currentBet := activeBet`; the status becomes `playing` and
`finalizeRound(activeBet)` is scheduled with the render's closure
values. -/
def playRound (s : GameState) : GameState :=
  let bet := s.activeBet
  if bet ≤ 0 then { s with payError := some "Enter a valid bet amount" }
  else if s.status = .idle ∧ s.balance < bet then
    { s with payError := some "Insufficient balance" }
  else
    let s' :=
      if s.status = .idle then
        { s with
          balance := round6 (s.balance - bet)
          currentBet := bet
          sessionPnL := round6 (s.sessionPnL - bet) }
      else s
    { s' with
      payError := none
      payoutError := none
      status := .playing
      pending := some
        { betAmount := bet
          serverSeed := s.serverSeed
          clientSeed := s.clientSeed
          nonce := s.nonce
          rangeLow := s.rangeLow
          rangeHigh := s.rangeHigh
          multiplier := multiplierOf s.rangeLow s.rangeHigh
          baseBet := s.baseBet
          balance := s.balance
          statusAtPlay := s.status } }

/-- `finalizeRound` (lines 1257-1319), the scheduled closure firing.  The
tick is `generateResult(serverSeed, clientSeed, nonce)` on the closure
values; the functional updates `setNonce(n => n + 1)`, `setHistory` and
`setUserBets` act on the *current* cells, everything else reads the
closure.  On a win: `currentBet := round6(betAmount * multiplier)`,
status `won_streak`, no history entry.  On a miss: one loss entry with
`amount := baseBet` (the closure's base bet), then the next default
stake is the base bet capped at the remaining wallet balance, and the
status returns to idle. -/
def finalizeRound (gen : String → String → ℕ → ℕ) (s : GameState) :
    GameState :=
  match s.pending with
  | none => s
  | some p =>
    let finalPrice := gen p.serverSeed p.clientSeed p.nonce
    let s1 := { s with
      nonce := s.nonce + 1
      history := s.history.drop 1 ++ [finalPrice]
      pending := none
      consumedNonces := s.consumedNonces ++ [p.nonce] }
    if p.rangeLow ≤ finalPrice ∧ finalPrice ≤ p.rangeHigh then
      { s1 with
        currentBet := round6 (p.betAmount * p.multiplier)
        status := .wonStreak
        lastResult := some (true, finalPrice) }
    else
      let remainingBalance :=
        if p.statusAtPlay = .idle then round6 (p.balance - p.betAmount)
        else p.balance
      let remainingBalance := max 0 remainingBalance
      let nextBet :=
        if remainingBalance < p.baseBet then remainingBalance else p.baseBet
      { s1 with
        userBets := s.userBets ++
          [{ result := false, price := finalPrice, amount := p.baseBet,
             payout := 0, rangeLow := p.rangeLow, rangeHigh := p.rangeHigh }]
        status := .idle
        currentBet := nextBet
        baseBet := nextBet
        lastResult := some (false, finalPrice) }

/-- `handleCashout` (lines 1348-1363): credit the wallet with
`currentBet`, log one win entry `{amount: baseBet, payout: currentBet}`,
return to idle with `currentBet := baseBet`. -/
def handleCashout (s : GameState) : GameState :=
  { s with
    balance := round6 (s.balance + s.currentBet)
    sessionPnL := round6 (s.sessionPnL + s.currentBet)
    userBets := s.userBets ++
      [{ result := true
         price := (s.lastResult.map Prod.snd).getD 0
         amount := round6 s.baseBet
         payout := round6 s.currentBet
         rangeLow := s.rangeLow
         rangeHigh := s.rangeHigh }]
    status := .idle
    currentBet := s.baseBet }

/-- `handleRangeChange` (lines 1126-1148) for `over` mode: the high bound
is pinned to `TICKS` and the low bound clamped so the width stays at most
750. -/
def setRangeOver (low : ℕ) (s : GameState) : GameState :=
  let low := min low (TICKS - 1)
  let low := max low (TICKS - 750)
  { s with rangeLow := low, rangeHigh := TICKS }

/-- The bet input handler (lines 1520-1544): only while idle, parse an
integer, cap it at `Math.floor(balance)` and floor negatives at 0. -/
def setBetAmount (n : ℕ) (s : GameState) : GameState :=
  if s.status = .idle then
    let v : ℤ := if (n : ℚ) > s.balance then ⌊s.balance⌋ else n
    { s with baseBet := (v : ℚ), payError := none }
  else s

end GameState

/-! ## Operation alphabet and runs

The presentation layer can trigger exactly these engine operations
(§6 of the spec): play, the scheduled resolution firing, cashout,
seed rotation, client-seed change, range change, and bet-amount entry.
A run is a left fold of steps from a start state; the crypto digest
`sha256` and the tick generator `gen` are the abstract parameters of
the whole transition system. -/

/-- One engine operation. -/
inductive Op where
  | play
  | resolve
  | cashout
  | rotate (newSeed : String)
  | setClient (newSeed : String)
  | rangeOver (low : ℕ)
  | betAmount (n : ℕ)
deriving DecidableEq, Repr

namespace Op

/-- Whether an operation is a seed rotation. -/
def isRotate : Op → Prop
  | .rotate _ => True
  | _ => False

instance : DecidablePred isRotate := by
  intro op; cases op <;> simp [isRotate] <;> infer_instance

end Op

/-- One engine step. -/
def step (sha256 : String → String) (gen : String → String → ℕ → ℕ)
    (op : Op) (s : GameState) : GameState :=
  match op with
  | .play => s.playRound
  | .resolve => s.finalizeRound gen
  | .cashout => s.handleCashout
  | .rotate newSeed => s.rotateSeed sha256 newSeed
  | .setClient newSeed => s.setClientSeed newSeed
  | .rangeOver low => s.setRangeOver low
  | .betAmount n => s.setBetAmount n

/-- Run a list of operations from a state. -/
def run (sha256 : String → String) (gen : String → String → ℕ → ℕ)
    (ops : List Op) (s : GameState) : GameState :=
  ops.foldl (fun t op => step sha256 gen op t) s

/-- The stake the step debits from the wallet: a successful `playRound`
from idle debits its active bet; no other operation debits. -/
def stepDebit (s : GameState) : Op → ℚ
  | .play =>
      if s.status = .idle ∧ 0 < s.activeBet ∧ s.activeBet ≤ s.balance
      then s.activeBet else 0
  | _ => 0

/-- The payout the step credits to the wallet: `handleCashout` credits
the current accumulated bet; no other operation credits. -/
def stepCredit (s : GameState) : Op → ℚ
  | .cashout => s.currentBet
  | _ => 0

/-- Total stakes debited along a run. -/
def debits (sha256 : String → String) (gen : String → String → ℕ → ℕ) :
    GameState → List Op → ℚ
  | _, [] => 0
  | s, op :: ops =>
      stepDebit s op + debits sha256 gen (step sha256 gen op s) ops

/-- Total payouts credited along a run. -/
def credits (sha256 : String → String) (gen : String → String → ℕ → ℕ) :
    GameState → List Op → ℚ
  | _, [] => 0
  | s, op :: ops =>
      stepCredit s op + credits sha256 gen (step sha256 gen op s) ops

/-! ## The money grid

All monetary values the engine produces are whole multiples of the
rounding unit `10⁻⁶`; on such values `round6` is the identity, which is
what makes the ledger arithmetic exact. -/

/-- A rational lies on the six-decimal money grid. -/
def Grid (x : ℚ) : Prop := ∃ n : ℤ, x = (n : ℚ) / 1000000

theorem Grid.zero : Grid 0 := ⟨0, by norm_num⟩

theorem Grid.add {x y : ℚ} (hx : Grid x) (hy : Grid y) : Grid (x + y) := by
  obtain ⟨n, rfl⟩ := hx; obtain ⟨m, rfl⟩ := hy
  exact ⟨n + m, by push_cast; ring⟩

theorem Grid.sub {x y : ℚ} (hx : Grid x) (hy : Grid y) : Grid (x - y) := by
  obtain ⟨n, rfl⟩ := hx; obtain ⟨m, rfl⟩ := hy
  exact ⟨n - m, by push_cast; ring⟩

theorem Grid.min {x y : ℚ} (hx : Grid x) (hy : Grid y) :
    Grid (min x y) := by
  rcases le_total x y with h | h
  · rwa [min_eq_left h]
  · rwa [min_eq_right h]

theorem Grid.max {x y : ℚ} (hx : Grid x) (hy : Grid y) :
    Grid (max x y) := by
  rcases le_total x y with h | h
  · rwa [max_eq_right h]
  · rwa [max_eq_left h]

theorem Grid.intCast (n : ℤ) : Grid (n : ℚ) :=
  ⟨n * 1000000, by push_cast; ring⟩

theorem Grid.natCast (n : ℕ) : Grid (n : ℚ) := Grid.intCast n

/-- `round6` always lands on the money grid. -/
theorem grid_round6 (x : ℚ) : Grid (round6 x) := ⟨_, rfl⟩

/-- On the money grid, `round6` is the identity. -/
theorem round6_eq_self {x : ℚ} (hx : Grid x) : round6 x = x := by
  obtain ⟨n, rfl⟩ := hx
  unfold round6
  rw [div_mul_cancel₀ _ (by norm_num : (1000000 : ℚ) ≠ 0), Int.floor_int_add]
  norm_num

/-- `round6` of a nonnegative amount is nonnegative. -/
theorem round6_nonneg {x : ℚ} (hx : 0 ≤ x) : 0 ≤ round6 x := by
  unfold round6
  have : (0 : ℤ) ≤ ⌊x * 1000000 + 1 / 2⌋ := by
    rw [Int.le_floor]
    push_cast
    nlinarith
  positivity

/-- Upper rounding error: `round6 x ≤ x + 1/2000000`. -/
theorem round6_le (x : ℚ) : round6 x ≤ x + 1 / 2000000 := by
  unfold round6
  have h := Int.floor_le (x * 1000000 + 1 / 2)
  rw [div_le_iff₀ (by norm_num : (0 : ℚ) < 1000000)]
  linarith

/-- Lower rounding error: `x - 1/2000000 < round6 x`. -/
theorem round6_gt (x : ℚ) : x - 1 / 2000000 < round6 x := by
  unfold round6
  have h := Int.lt_floor_add_one (x * 1000000 + 1 / 2)
  rw [lt_div_iff₀ (by norm_num : (0 : ℚ) < 1000000)]
  linarith

/-! ## Claim C1: the tick generator matches the reference definition -/

/-- Unfolding the accumulation loop on an explicit four-byte head. -/
theorem accumVal_cons (b0 b1 b2 b3 : ℕ) (tl : List ℕ) :
    accumVal (b0 :: b1 :: b2 :: b3 :: tl) =
      b0 * 2 ^ 24 + b1 * 2 ^ 16 + b2 * 2 ^ 8 + b3 := by
  simp [accumVal, List.foldl]
  ring

/-- C1: For every serverSeed, clientSeed and nonce, the tick generator
equals the reference definition — message `clientSeed ++ ":" ++ nonce`,
digest `HMAC-SHA256(serverSeed, message)`, first four digest bytes
accumulated into an unsigned 32-bit big-endian integer `v` via
`v = v*256 + byte`, `p = v / 2³²`, result `⌊p * 1001⌋` — and the result
lies in `[0, 1000]` (a natural number, so the lower bound is inherent).
The digest-side hypotheses (at least four bytes, each below 256) hold
for every SHA-256-based HMAC. -/
theorem generateResult_eq_reference (hmac : String → String → List ℕ)
    (serverSeed clientSeed : String) (nonce : ℕ)
    (hlen : 4 ≤ (hmac serverSeed (hmacMessage clientSeed nonce)).length)
    (hbytes : ∀ b ∈ hmac serverSeed (hmacMessage clientSeed nonce), b < 256) :
    generateResult hmac serverSeed clientSeed nonce =
      referenceTick hmac serverSeed clientSeed nonce ∧
    generateResult hmac serverSeed clientSeed nonce ≤ 1000 := by
  unfold generateResult referenceTick getTickFromHash
  rcases hd : hmac serverSeed (hmacMessage clientSeed nonce) with
    _ | ⟨b0, _ | ⟨b1, _ | ⟨b2, _ | ⟨b3, tl⟩⟩⟩⟩ <;>
    rw [hd] at hlen <;> simp at hlen
  rw [hd] at hbytes
  have hb0 : b0 < 256 := hbytes b0 (by simp)
  have hb1 : b1 < 256 := hbytes b1 (by simp)
  have hb2 : b2 < 256 := hbytes b2 (by simp)
  have hb3 : b3 < 256 := hbytes b3 (by simp)
  have hv : accumVal (b0 :: b1 :: b2 :: b3 :: tl) =
      b0 * 2 ^ 24 + b1 * 2 ^ 16 + b2 * 2 ^ 8 + b3 := accumVal_cons ..
  constructor
  · simp only [hv, List.getD]
    norm_num
  · have hlt : accumVal (b0 :: b1 :: b2 :: b3 :: tl) < 2 ^ 32 := by
      rw [hv]; omega
    have hq : ((accumVal (b0 :: b1 :: b2 :: b3 :: tl) : ℚ) / 4294967296) *
        1001 < 1001 := by
      have : (accumVal (b0 :: b1 :: b2 :: b3 :: tl) : ℚ) < 4294967296 := by
        exact_mod_cast hlt
      rw [div_mul_eq_mul_div, div_lt_iff₀ (by norm_num)]
      nlinarith
    have hfl : ⌊((accumVal (b0 :: b1 :: b2 :: b3 :: tl) : ℚ) / 4294967296) *
        1001⌋ ≤ 1000 := by
      have := Int.floor_lt.mpr (by exact_mod_cast hq :
        ((accumVal (b0 :: b1 :: b2 :: b3 :: tl) : ℚ) / 4294967296) * 1001 <
          ((1001 : ℤ) : ℚ))
      omega
    simpa using Int.toNat_le.mpr hfl

/-- Witness for C1: a concrete all-ones digest satisfies the byte
hypotheses, and the generator agrees with the reference there. -/
theorem generateResult_eq_reference_witness :
    generateResult (fun _ _ => [255, 255, 255, 255]) "s" "c" 0 =
      referenceTick (fun _ _ => [255, 255, 255, 255]) "s" "c" 0 ∧
    generateResult (fun _ _ => [255, 255, 255, 255]) "s" "c" 0 ≤ 1000 :=
  generateResult_eq_reference (fun _ _ => [255, 255, 255, 255]) "s" "c" 0
    (by decide) (by decide)

/-! ## Claim C8: band of width 100 at edge 0.85 -/

/-- C8: For a band of width 100 (here `[500, 600)`) with edge `0.85`, the
multiplier is exactly `8.5 = 0.85 / 0.1`, and with stake 25 the potential
payout is exactly `212.5`.  (The engine instantiates the edge constant at
`0.80`; the formula itself is the code's, with the edge as the
configuration constant the spec prescribes.) -/
theorem multiplier_width100_edge85 :
    multiplierE (85 / 100) 500 600 = 17 / 2 ∧
    payoutOf (multiplierE (85 / 100) 500 600) 25 = 425 / 2 := by
  have hm : multiplierE (85 / 100) 500 600 = 17 / 2 := by
    unfold multiplierE TICKS
    norm_num [max_def, round6]
  exact ⟨hm, by rw [hm]; unfold payoutOf; norm_num [round6]⟩

/-! ## Claim C3: the published hash is the SHA-256 of the active seed -/

/-- The commitment invariant: the published `serverSeedHash` is the
digest of the active `serverSeed`. -/
def HashOk (sha256 : String → String) (s : GameState) : Prop :=
  s.serverSeedHash = sha256 s.serverSeed

theorem hashOk_init (sha256 : String → String) (hist : List ℕ)
    (seed clientSeed : String) :
    HashOk sha256 (GameState.initState sha256 hist seed clientSeed) := rfl

theorem hashOk_step (sha256 : String → String)
    (gen : String → String → ℕ → ℕ) (op : Op) (s : GameState)
    (h : HashOk sha256 s) : HashOk sha256 (step sha256 gen op s) := by
  unfold HashOk at h ⊢
  cases op <;>
    simp only [step, GameState.playRound, GameState.finalizeRound,
      GameState.handleCashout, GameState.rotateSeed, GameState.setClientSeed,
      GameState.setRangeOver, GameState.setBetAmount] <;>
    (try split) <;> (try split_ifs) <;> simp [h]

theorem hashOk_run (sha256 : String → String)
    (gen : String → String → ℕ → ℕ) (ops : List Op) (s : GameState)
    (h : HashOk sha256 s) : HashOk sha256 (run sha256 gen ops s) := by
  induction ops generalizing s with
  | nil => exact h
  | cons op ops ih => exact ih _ (hashOk_step sha256 gen op s h)

/-- C3: For every seed pair the engine publishes — the pair installed at
session start and the pair installed by every rotation — the published
`serverSeedHash` is `SHA-256(serverSeed)` of the active pair, in every
reachable state; in particular it holds at the moment of publication,
before any round is played with that seed. -/
theorem serverSeedHash_commitment (sha256 : String → String)
    (gen : String → String → ℕ → ℕ) (hist : List ℕ)
    (seed clientSeed : String) (ops : List Op) :
    (run sha256 gen ops (GameState.initState sha256 hist seed clientSeed)
      ).serverSeedHash =
    sha256 (run sha256 gen ops
      (GameState.initState sha256 hist seed clientSeed)).serverSeed :=
  hashOk_run sha256 gen ops _ (hashOk_init sha256 hist seed clientSeed)

/-! ## Claim C2: consumed nonces are `0, 1, ..., N-1` per seed pair -/

/-- The nonce-accounting invariant: the nonces consumed so far on the
active pair are exactly `0, ..., nonce-1`, and a scheduled round (if
any) will consume the current nonce. -/
def NonceInv (s : GameState) : Prop :=
  s.consumedNonces = List.range s.nonce ∧
  ∀ p ∈ s.pending, PendingRound.nonce p = s.nonce

theorem nonceInv_step (sha256 : String → String)
    (gen : String → String → ℕ → ℕ) (op : Op) (s : GameState)
    (h : NonceInv s) (hop : ¬ op.isRotate) :
    NonceInv (step sha256 gen op s) := by
  obtain ⟨hrange, hpend⟩ := h
  cases op with
  | play =>
      unfold NonceInv
      simp only [step, GameState.playRound]
      split_ifs <;> simp_all
  | resolve =>
      unfold NonceInv
      simp only [step, GameState.finalizeRound]
      rcases hp : s.pending with _ | p
      · simp_all [hp]
      · have hn : PendingRound.nonce p = s.nonce := hpend p (by simp [hp])
        simp only [hp]
        split_ifs <;> simp_all [List.range_succ]
  | cashout => exact ⟨hrange, hpend⟩
  | rotate newSeed => exact absurd trivial hop
  | setClient newSeed => exact ⟨hrange, hpend⟩
  | rangeOver low => exact ⟨hrange, hpend⟩
  | betAmount n =>
      unfold NonceInv
      simp only [step, GameState.setBetAmount]
      split_ifs <;> simp_all

theorem nonceInv_run (sha256 : String → String)
    (gen : String → String → ℕ → ℕ) (ops : List Op) (s : GameState)
    (h : NonceInv s) (hops : ∀ op ∈ ops, ¬ op.isRotate) :
    NonceInv (run sha256 gen ops s) := by
  induction ops generalizing s with
  | nil => exact h
  | cons op ops ih =>
      exact ih _ (nonceInv_step sha256 gen op s h (hops op (by simp)))
        (fun o ho => hops o (by simp [ho]))

/-- C2: Starting from a fresh seed pair (nonce 0, nothing consumed, no
round in flight) and running any operations that contain no rotation,
the nonces consumed by the resolved rounds are exactly
`0, 1, ..., N-1` (`List.range N`) where `N` is the final nonce — each
resolved round consumes the current nonce and increments it by exactly
one — and every rotation resets the nonce (and the per-pair consumption
record) to zero. -/
theorem nonce_sequence (sha256 : String → String)
    (gen : String → String → ℕ → ℕ) (s : GameState) (ops : List Op)
    (hn : s.nonce = 0) (hc : s.consumedNonces = [])
    (hp : s.pending = none) (hops : ∀ op ∈ ops, ¬ op.isRotate) :
    (run sha256 gen ops s).consumedNonces =
      List.range (run sha256 gen ops s).nonce ∧
    ∀ newSeed t, (GameState.rotateSeed sha256 newSeed t).nonce = 0 ∧
      (GameState.rotateSeed sha256 newSeed t).consumedNonces = [] := by
  refine ⟨(nonceInv_run sha256 gen ops s ⟨?_, ?_⟩ hops).1, fun _ _ => ⟨rfl, rfl⟩⟩
  · rw [hc, hn]; rfl
  · intro p hmem; rw [hp] at hmem; simp at hmem

/-- Witness for C2: a concrete two-round run from the initial state
consumes nonces `[0, 1]`. -/
theorem nonce_sequence_witness :
    (run (fun _ => "h") (fun _ _ _ => 0) [.play, .resolve, .play, .resolve]
      (GameState.initState (fun _ => "h") [] "sv" "cl")).consumedNonces =
      List.range (run (fun _ => "h") (fun _ _ _ => 0)
        [.play, .resolve, .play, .resolve]
        (GameState.initState (fun _ => "h") [] "sv" "cl")).nonce ∧
    ∀ newSeed t, (GameState.rotateSeed (fun _ => "h") newSeed t).nonce = 0 ∧
      (GameState.rotateSeed (fun _ => "h") newSeed t).consumedNonces = [] :=
  nonce_sequence (fun _ => "h") (fun _ _ _ => 0)
    (GameState.initState (fun _ => "h") [] "sv" "cl")
    [.play, .resolve, .play, .resolve] rfl rfl rfl
    (by
      intro op hop
      simp only [List.mem_cons, List.not_mem_nil, or_false] at hop
      rcases hop with rfl | rfl | rfl | rfl <;> exact not_false)

/-! ## Claim C4: balance conservation and nonnegativity -/

/-- The engine's multiplier is always nonnegative. -/
theorem multiplierOf_nonneg (low high : ℕ) : 0 ≤ multiplierOf low high := by
  simp only [multiplierOf, multiplierE]
  split_ifs with h
  · exact le_refl 0
  · exact round6_nonneg (div_nonneg (by norm_num) (le_of_not_le (by simpa using h)))

/-- The engine's multiplier lies on the money grid. -/
theorem multiplierOf_grid (low high : ℕ) : Grid (multiplierOf low high) := by
  simp only [multiplierOf, multiplierE]
  split_ifs
  · exact Grid.zero
  · exact grid_round6 _

/-- The monetary invariant: wallet balance, current bet and base bet are
nonnegative multiples of `10⁻⁶`, and so are the monetary components of a
scheduled round. -/
structure MoneyInv (s : GameState) : Prop where
  bal0 : 0 ≤ s.balance
  balG : Grid s.balance
  cur0 : 0 ≤ s.currentBet
  curG : Grid s.currentBet
  base0 : 0 ≤ s.baseBet
  baseG : Grid s.baseBet
  pend : ∀ p ∈ s.pending,
    0 ≤ PendingRound.betAmount p ∧ Grid (PendingRound.betAmount p) ∧
    0 ≤ PendingRound.baseBet p ∧ Grid (PendingRound.baseBet p) ∧
    0 ≤ PendingRound.multiplier p ∧ Grid (PendingRound.multiplier p) ∧
    0 ≤ PendingRound.balance p ∧ Grid (PendingRound.balance p)

theorem moneyInv_step (sha256 : String → String)
    (gen : String → String → ℕ → ℕ) (op : Op) (s : GameState)
    (h : MoneyInv s) :
    MoneyInv (step sha256 gen op s) ∧
    (step sha256 gen op s).balance =
      s.balance - stepDebit s op + stepCredit s op := by
  obtain ⟨bal0, balG, cur0, curG, base0, baseG, pend⟩ := h
  have hbetG : Grid s.activeBet := by
    unfold GameState.activeBet
    split_ifs
    · exact curG
    · exact baseG
  have hbet0' : 0 ≤ s.activeBet := by
    unfold GameState.activeBet
    split_ifs
    · exact cur0
    · exact base0
  cases op with
  | play =>
      by_cases h1 : s.activeBet ≤ 0
      · have hnd : ¬ (s.status = .idle ∧ 0 < s.activeBet ∧ s.activeBet ≤ s.balance) := by
          rintro ⟨-, hpos, -⟩; exact absurd hpos (not_lt.mpr h1)
        refine ⟨?_, ?_⟩
        · simp only [step, GameState.playRound, if_pos h1]
          exact ⟨bal0, balG, cur0, curG, base0, baseG, pend⟩
        · simp only [step, GameState.playRound, if_pos h1, stepDebit, stepCredit,
            if_neg hnd]
          ring
      · by_cases h2 : s.status = .idle ∧ s.balance < s.activeBet
        · have hnd : ¬ (s.status = .idle ∧ 0 < s.activeBet ∧ s.activeBet ≤ s.balance) := by
            rintro ⟨-, -, hle⟩; exact absurd h2.2 (not_lt.mpr hle)
          refine ⟨?_, ?_⟩
          · simp only [step, GameState.playRound, if_neg h1, if_pos h2]
            exact ⟨bal0, balG, cur0, curG, base0, baseG, pend⟩
          · simp only [step, GameState.playRound, if_neg h1, if_pos h2, stepDebit,
              stepCredit, if_neg hnd]
            ring
        · have hbet0 : 0 < s.activeBet := lt_of_not_le h1
          have hpendNew : ∀ p ∈ some
              { betAmount := s.activeBet, serverSeed := s.serverSeed,
                clientSeed := s.clientSeed, nonce := s.nonce,
                rangeLow := s.rangeLow, rangeHigh := s.rangeHigh,
                multiplier := multiplierOf s.rangeLow s.rangeHigh,
                baseBet := s.baseBet, balance := s.balance,
                statusAtPlay := s.status : PendingRound},
              0 ≤ PendingRound.betAmount p ∧ Grid (PendingRound.betAmount p) ∧
              0 ≤ PendingRound.baseBet p ∧ Grid (PendingRound.baseBet p) ∧
              0 ≤ PendingRound.multiplier p ∧ Grid (PendingRound.multiplier p) ∧
              0 ≤ PendingRound.balance p ∧ Grid (PendingRound.balance p) := by
            intro p hp
            simp only [Option.mem_def, Option.some.injEq] at hp
            subst hp
            exact ⟨le_of_lt hbet0, hbetG, base0, baseG,
              multiplierOf_nonneg _ _, multiplierOf_grid _ _, bal0, balG⟩
          by_cases h3 : s.status = .idle
          · have hle : s.activeBet ≤ s.balance := by
              by_contra hlt
              exact h2 ⟨h3, lt_of_not_le hlt⟩
            have hdeb : round6 (s.balance - s.activeBet) = s.balance - s.activeBet :=
              round6_eq_self (Grid.sub balG hbetG)
            have hd : s.status = .idle ∧ 0 < s.activeBet ∧ s.activeBet ≤ s.balance :=
              ⟨h3, hbet0, hle⟩
            refine ⟨?_, ?_⟩
            · simp only [step, GameState.playRound, if_neg h1, if_neg h2, if_pos h3]
              exact ⟨by simpa [hdeb] using sub_nonneg.mpr hle,
                by simpa [hdeb] using Grid.sub balG hbetG,
                le_of_lt hbet0, hbetG, base0, baseG, hpendNew⟩
            · simp only [step, GameState.playRound, if_neg h1, if_neg h2, if_pos h3,
                stepDebit, stepCredit, if_pos hd, hdeb]
              ring
          · have hnd : ¬ (s.status = .idle ∧ 0 < s.activeBet ∧ s.activeBet ≤ s.balance) := by
              rintro ⟨hidle, -, -⟩; exact h3 hidle
            refine ⟨?_, ?_⟩
            · simp only [step, GameState.playRound, if_neg h1, if_neg h2, if_neg h3]
              exact ⟨bal0, balG, cur0, curG, base0, baseG, hpendNew⟩
            · simp only [step, GameState.playRound, if_neg h1, if_neg h2, if_neg h3,
                stepDebit, stepCredit, if_neg hnd]
              ring
  | resolve =>
      rcases hp : s.pending with _ | p
      · refine ⟨?_, ?_⟩
        · simp only [step, GameState.finalizeRound, hp]
          exact ⟨bal0, balG, cur0, curG, base0, baseG, pend⟩
        · simp only [step, GameState.finalizeRound, hp, stepDebit, stepCredit]
          ring
      · obtain ⟨pb0, pbG, pbase0, pbaseG, pm0, pmG, pbal0, pbalG⟩ :=
          pend p (by simp [hp])
        have hrem0 : (0 : ℚ) ≤ max 0 (if PendingRound.statusAtPlay p = .idle then
            round6 (PendingRound.balance p - PendingRound.betAmount p)
            else PendingRound.balance p) := le_max_left 0 _
        have hremG : Grid (max 0 (if PendingRound.statusAtPlay p = .idle then
            round6 (PendingRound.balance p - PendingRound.betAmount p)
            else PendingRound.balance p)) := by
          refine Grid.max Grid.zero ?_
          split_ifs
          · exact grid_round6 _
          · exact pbalG
        by_cases hwin : PendingRound.rangeLow p ≤ gen (PendingRound.serverSeed p)
            (PendingRound.clientSeed p) (PendingRound.nonce p) ∧
            gen (PendingRound.serverSeed p) (PendingRound.clientSeed p)
              (PendingRound.nonce p) ≤ PendingRound.rangeHigh p
        · refine ⟨?_, ?_⟩
          · simp only [step, GameState.finalizeRound, hp, if_pos hwin]
            exact ⟨bal0, balG, round6_nonneg (mul_nonneg pb0 pm0), grid_round6 _,
              base0, baseG, by simp⟩
          · simp only [step, GameState.finalizeRound, hp, if_pos hwin, stepDebit,
              stepCredit]
            ring
        · refine ⟨?_, ?_⟩
          · simp only [step, GameState.finalizeRound, hp, if_neg hwin]
            by_cases hlt : max 0 (if PendingRound.statusAtPlay p = .idle then
                round6 (PendingRound.balance p - PendingRound.betAmount p)
                else PendingRound.balance p) < PendingRound.baseBet p
            · simp only [if_pos hlt]
              exact ⟨bal0, balG, hrem0, hremG, hrem0, hremG, by simp⟩
            · simp only [if_neg hlt]
              exact ⟨bal0, balG, pbase0, pbaseG, pbase0, pbaseG, by simp⟩
          · simp only [step, GameState.finalizeRound, hp, if_neg hwin, stepDebit,
              stepCredit]
            ring
  | cashout =>
      have hcred : round6 (s.balance + s.currentBet) = s.balance + s.currentBet :=
        round6_eq_self (Grid.add balG curG)
      refine ⟨?_, ?_⟩
      · simp only [step, GameState.handleCashout]
        exact ⟨round6_nonneg (add_nonneg bal0 cur0), grid_round6 _,
          base0, baseG, base0, baseG, pend⟩
      · simp only [step, GameState.handleCashout, stepDebit, stepCredit, hcred]
        ring
  | rotate newSeed =>
      exact ⟨⟨bal0, balG, cur0, curG, base0, baseG, pend⟩, by
        simp only [step, GameState.rotateSeed, stepDebit, stepCredit]; ring⟩
  | setClient newSeed =>
      exact ⟨⟨bal0, balG, cur0, curG, base0, baseG, pend⟩, by
        simp only [step, GameState.setClientSeed, stepDebit, stepCredit]; ring⟩
  | rangeOver low =>
      exact ⟨⟨bal0, balG, cur0, curG, base0, baseG, pend⟩, by
        simp only [step, GameState.setRangeOver, stepDebit, stepCredit]; ring⟩
  | betAmount n =>
      by_cases h1 : s.status = .idle
      · by_cases h2 : (n : ℚ) > s.balance
        · refine ⟨?_, ?_⟩
          · simp only [step, GameState.setBetAmount, if_pos h1, if_pos h2]
            refine ⟨bal0, balG, cur0, curG, ?_, Grid.intCast _, pend⟩
            show (0 : ℚ) ≤ ((⌊s.balance⌋ : ℤ) : ℚ)
            exact_mod_cast Int.floor_nonneg.mpr bal0
          · simp only [step, GameState.setBetAmount, if_pos h1, if_pos h2,
              stepDebit, stepCredit]
            ring
        · refine ⟨?_, ?_⟩
          · simp only [step, GameState.setBetAmount, if_pos h1, if_neg h2]
            exact ⟨bal0, balG, cur0, curG, by positivity, Grid.natCast _, pend⟩
          · simp only [step, GameState.setBetAmount, if_pos h1, if_neg h2,
              stepDebit, stepCredit]
            ring
      · refine ⟨?_, ?_⟩
        · simp only [step, GameState.setBetAmount, if_neg h1]
          exact ⟨bal0, balG, cur0, curG, base0, baseG, pend⟩
        · simp only [step, GameState.setBetAmount, if_neg h1, stepDebit, stepCredit]
          ring

theorem moneyInv_run (sha256 : String → String)
    (gen : String → String → ℕ → ℕ) (ops : List Op) (s : GameState)
    (h : MoneyInv s) : MoneyInv (run sha256 gen ops s) := by
  induction ops generalizing s with
  | nil => exact h
  | cons op ops ih => exact ih _ (moneyInv_step sha256 gen op s h).1

/-- C4: Across every finite sequence of engine operations from a state
whose monetary fields are nonnegative multiples of the money unit, the
final wallet balance equals the initial balance minus the stakes debited
at bet placement plus the payouts credited at cashout, and the balance
is nonnegative after every prefix of the sequence. -/
theorem balance_conservation (sha256 : String → String)
    (gen : String → String → ℕ → ℕ) (ops : List Op) (s : GameState)
    (h : MoneyInv s) :
    (run sha256 gen ops s).balance =
      s.balance - debits sha256 gen s ops + credits sha256 gen s ops ∧
    ∀ n, 0 ≤ (run sha256 gen (ops.take n) s).balance := by
  induction ops generalizing s with
  | nil =>
      refine ⟨by simp [run, debits, credits], fun n => ?_⟩
      simpa [run] using h.bal0
  | cons op ops ih =>
      obtain ⟨hstep, heq⟩ := moneyInv_step sha256 gen op s h
      obtain ⟨ihEq, ihPre⟩ := ih (step sha256 gen op s) hstep
      constructor
      · have : run sha256 gen (op :: ops) s =
            run sha256 gen ops (step sha256 gen op s) := rfl
        rw [this, ihEq, heq]
        simp [debits, credits]
        ring
      · intro n
        cases n with
        | zero => simpa [run] using h.bal0
        | succ m =>
            have : (op :: ops).take (m + 1) = op :: ops.take m := rfl
            rw [this]
            exact ihPre m

/-- Witness for C4: a concrete play-resolve-cashout run from the initial
state satisfies the monetary invariant hypothesis, and the ledger
equation holds for it. -/
theorem balance_conservation_witness :
    (run (fun _ => "") (fun _ _ _ => 500) [.play, .resolve, .cashout]
      (GameState.initState (fun _ => "") [] "a" "b")).balance =
      (GameState.initState (fun _ => "") [] "a" "b").balance -
        debits (fun _ => "") (fun _ _ _ => 500)
          (GameState.initState (fun _ => "") [] "a" "b")
          [.play, .resolve, .cashout] +
        credits (fun _ => "") (fun _ _ _ => 500)
          (GameState.initState (fun _ => "") [] "a" "b")
          [.play, .resolve, .cashout] ∧
    ∀ n, 0 ≤ (run (fun _ => "") (fun _ _ _ => 500)
      ([Op.play, Op.resolve, Op.cashout].take n)
      (GameState.initState (fun _ => "") [] "a" "b")).balance :=
  balance_conservation (fun _ => "") (fun _ _ _ => 500)
    [.play, .resolve, .cashout] (GameState.initState (fun _ => "") [] "a" "b")
    ⟨by norm_num [GameState.initState], ⟨10000000000, by norm_num [GameState.initState]⟩,
      by norm_num [GameState.initState], ⟨25000000, by norm_num [GameState.initState]⟩,
      by norm_num [GameState.initState], ⟨25000000, by norm_num [GameState.initState]⟩,
      by simp [GameState.initState]⟩

/-! ## Claim C5: `placeBet` from idle -/

/-- C5: From the idle state, a play fails exactly when the staged amount
is nonpositive or exceeds the balance; a failed play changes none of
balance, status, currentBet, baseBet, nonce, tick history, bet history
or the scheduled round; a successful play debits the balance by the
amount (exactly, on the money grid), sets `currentBet = baseBet =`
amount, and moves the status to `playing`. -/
theorem placeBet_spec (s : GameState) (h : s.status = .idle) :
    ((s.baseBet ≤ 0 ∨ s.balance < s.baseBet) ↔ s.playRound.status = .idle) ∧
    ((s.baseBet ≤ 0 ∨ s.balance < s.baseBet) →
      s.playRound.balance = s.balance ∧ s.playRound.status = s.status ∧
      s.playRound.currentBet = s.currentBet ∧
      s.playRound.baseBet = s.baseBet ∧ s.playRound.nonce = s.nonce ∧
      s.playRound.history = s.history ∧ s.playRound.userBets = s.userBets ∧
      s.playRound.pending = s.pending) ∧
    (0 < s.baseBet → s.baseBet ≤ s.balance →
      s.playRound.balance = round6 (s.balance - s.baseBet) ∧
      (Grid s.balance → Grid s.baseBet →
        s.playRound.balance = s.balance - s.baseBet) ∧
      s.playRound.currentBet = s.baseBet ∧
      s.playRound.baseBet = s.baseBet ∧
      s.playRound.status = .playing) := by
  have hab : s.activeBet = s.baseBet := by
    simp [GameState.activeBet, h]
  by_cases h1 : s.baseBet ≤ 0
  · simp only [GameState.playRound, hab, if_pos h1]
    refine ⟨by simp [h, h1], fun _ => by simp, fun hpos _ => absurd h1 (not_le.mpr hpos)⟩
  · by_cases h2 : s.balance < s.baseBet
    · simp only [GameState.playRound, hab, if_neg h1,
        if_pos (show s.status = .idle ∧ s.balance < s.baseBet from ⟨h, h2⟩)]
      refine ⟨by simp [h, h2], fun _ => by simp, fun _ hle => absurd h2 (not_lt.mpr hle)⟩
    · simp only [GameState.playRound, hab, if_neg h1,
        if_neg (show ¬ (s.status = .idle ∧ s.balance < s.baseBet) from
          fun hc => h2 hc.2), if_pos h]
      refine ⟨by simp [not_or.mpr ⟨h1, h2⟩], ?_, fun _ _ => ?_⟩
      · rintro (hc | hc)
        · exact absurd hc h1
        · exact absurd hc h2
      · and_intros <;>
          first
          | rfl
          | exact fun hG bG => round6_eq_self (Grid.sub hG bG)
          | trivial

/-- Witness for C5: the initial state is idle with bet 25 on balance
10000, so the play succeeds and debits exactly 25. -/
theorem placeBet_spec_witness :
    (((GameState.initState (fun _ => "") [] "a" "b").baseBet ≤ 0 ∨
      (GameState.initState (fun _ => "") [] "a" "b").balance <
        (GameState.initState (fun _ => "") [] "a" "b").baseBet) ↔
      (GameState.initState (fun _ => "") [] "a" "b").playRound.status = .idle) ∧
    (((GameState.initState (fun _ => "") [] "a" "b").baseBet ≤ 0 ∨
      (GameState.initState (fun _ => "") [] "a" "b").balance <
        (GameState.initState (fun _ => "") [] "a" "b").baseBet) →
      (GameState.initState (fun _ => "") [] "a" "b").playRound.balance =
        (GameState.initState (fun _ => "") [] "a" "b").balance ∧
      (GameState.initState (fun _ => "") [] "a" "b").playRound.status =
        (GameState.initState (fun _ => "") [] "a" "b").status ∧
      (GameState.initState (fun _ => "") [] "a" "b").playRound.currentBet =
        (GameState.initState (fun _ => "") [] "a" "b").currentBet ∧
      (GameState.initState (fun _ => "") [] "a" "b").playRound.baseBet =
        (GameState.initState (fun _ => "") [] "a" "b").baseBet ∧
      (GameState.initState (fun _ => "") [] "a" "b").playRound.nonce =
        (GameState.initState (fun _ => "") [] "a" "b").nonce ∧
      (GameState.initState (fun _ => "") [] "a" "b").playRound.history =
        (GameState.initState (fun _ => "") [] "a" "b").history ∧
      (GameState.initState (fun _ => "") [] "a" "b").playRound.userBets =
        (GameState.initState (fun _ => "") [] "a" "b").userBets ∧
      (GameState.initState (fun _ => "") [] "a" "b").playRound.pending =
        (GameState.initState (fun _ => "") [] "a" "b").pending) ∧
    (0 < (GameState.initState (fun _ => "") [] "a" "b").baseBet →
      (GameState.initState (fun _ => "") [] "a" "b").baseBet ≤
        (GameState.initState (fun _ => "") [] "a" "b").balance →
      (GameState.initState (fun _ => "") [] "a" "b").playRound.balance =
        round6 ((GameState.initState (fun _ => "") [] "a" "b").balance -
          (GameState.initState (fun _ => "") [] "a" "b").baseBet) ∧
      (Grid (GameState.initState (fun _ => "") [] "a" "b").balance →
        Grid (GameState.initState (fun _ => "") [] "a" "b").baseBet →
        (GameState.initState (fun _ => "") [] "a" "b").playRound.balance =
          (GameState.initState (fun _ => "") [] "a" "b").balance -
          (GameState.initState (fun _ => "") [] "a" "b").baseBet) ∧
      (GameState.initState (fun _ => "") [] "a" "b").playRound.currentBet =
        (GameState.initState (fun _ => "") [] "a" "b").baseBet ∧
      (GameState.initState (fun _ => "") [] "a" "b").playRound.baseBet =
        (GameState.initState (fun _ => "") [] "a" "b").baseBet ∧
      (GameState.initState (fun _ => "") [] "a" "b").playRound.status =
        .playing) :=
  placeBet_spec (GameState.initState (fun _ => "") [] "a" "b") rfl

/-! ## Claim C6: outcomes are judged against the stake-time range -/

/-- C6: The resolution of a round never reads the live range: resolving
after any mutation of the range fields produces the same state as
resolving first and mutating after — in particular the won/lost status,
the history entry and the settlement amounts are unchanged — and a
(successful) play snapshots the range and multiplier of its own render
into the scheduled round, which is what resolution judges against. -/
theorem range_snapshot (gen : String → String → ℕ → ℕ) (s : GameState)
    (a b : ℕ) :
    GameState.finalizeRound gen { s with rangeLow := a, rangeHigh := b } =
      { GameState.finalizeRound gen s with rangeLow := a, rangeHigh := b } ∧
    ∀ t : GameState,
      (t.playRound.pending = t.pending ∧ t.playRound.status = t.status) ∨
      t.playRound.pending = some
        { betAmount := t.activeBet, serverSeed := t.serverSeed,
          clientSeed := t.clientSeed, nonce := t.nonce,
          rangeLow := t.rangeLow, rangeHigh := t.rangeHigh,
          multiplier := multiplierOf t.rangeLow t.rangeHigh,
          baseBet := t.baseBet, balance := t.balance,
          statusAtPlay := t.status } := by
  constructor
  · rcases hp : s.pending with _ | p
    · simp [GameState.finalizeRound, hp]
    · by_cases hwin : PendingRound.rangeLow p ≤ gen (PendingRound.serverSeed p)
          (PendingRound.clientSeed p) (PendingRound.nonce p) ∧
          gen (PendingRound.serverSeed p) (PendingRound.clientSeed p)
            (PendingRound.nonce p) ≤ PendingRound.rangeHigh p
      · simp [GameState.finalizeRound, hp, hwin]
      · simp [GameState.finalizeRound, hp, hwin]
  · intro t
    by_cases h1 : t.activeBet ≤ 0
    · left; simp [GameState.playRound, h1]
    · by_cases h2 : t.status = .idle ∧ t.balance < t.activeBet
      · left; simp [GameState.playRound, h1, h2]
      · right
        by_cases h3 : t.status = .idle
        · have hnb : ¬ t.balance < t.activeBet := fun hb => h2 ⟨h3, hb⟩
          simp [GameState.playRound, h1, h2, h3, hnb]
        · simp [GameState.playRound, h1, h2, h3]

/-! ## Claim C7: settlement of a missed round -/

/-- Counterexample to C7 as stated: a fresh bet of 25 on balance 10000
is resolved as a miss (tick 0 against the default range `[420, 1000]`);
the engine appends the loss entry and returns to idle, but `currentBet`
is 25 afterwards — the base bet redisplayed as the next default stake —
not 0 as the claim asserts. -/
theorem miss_keeps_currentBet_counterexample :
    (GameState.finalizeRound (fun _ _ _ => 0)
      (GameState.initState (fun _ => "") [] "sv" "cl").playRound).status =
        .idle ∧
    ((GameState.finalizeRound (fun _ _ _ => 0)
      (GameState.initState (fun _ => "") [] "sv" "cl").playRound).userBets.map
        BetEntry.amount) = [25] ∧
    (GameState.finalizeRound (fun _ _ _ => 0)
      (GameState.initState (fun _ => "") [] "sv" "cl").playRound).currentBet =
        25 ∧
    ¬ (GameState.finalizeRound (fun _ _ _ => 0)
      (GameState.initState (fun _ => "") [] "sv" "cl").playRound).currentBet =
        0 := by
  norm_num [GameState.initState, GameState.playRound, GameState.activeBet,
    GameState.finalizeRound, round6]

/-- C7 as amended: on every miss the engine transitions to idle and
appends exactly one loss entry whose amount is the stake-time `baseBet`
(the original capital of the streak, not the compounded `currentBet`);
`currentBet` is not zeroed but set — together with `baseBet` — to the
next default stake, the old base bet capped at the remaining wallet
balance (which is zero only when that remainder is zero). -/
theorem miss_settlement (gen : String → String → ℕ → ℕ) (s : GameState)
    (p : PendingRound) (hp : s.pending = some p)
    (hmiss : ¬ (PendingRound.rangeLow p ≤
        gen (PendingRound.serverSeed p) (PendingRound.clientSeed p)
          (PendingRound.nonce p) ∧
      gen (PendingRound.serverSeed p) (PendingRound.clientSeed p)
        (PendingRound.nonce p) ≤ PendingRound.rangeHigh p)) :
    (GameState.finalizeRound gen s).status = .idle ∧
    (GameState.finalizeRound gen s).userBets = s.userBets ++
      [{ result := false,
         price := gen (PendingRound.serverSeed p) (PendingRound.clientSeed p)
           (PendingRound.nonce p),
         amount := PendingRound.baseBet p, payout := 0,
         rangeLow := PendingRound.rangeLow p,
         rangeHigh := PendingRound.rangeHigh p }] ∧
    (GameState.finalizeRound gen s).currentBet =
      min (PendingRound.baseBet p)
        (max 0 (if PendingRound.statusAtPlay p = .idle then
          round6 (PendingRound.balance p - PendingRound.betAmount p)
          else PendingRound.balance p)) ∧
    (GameState.finalizeRound gen s).baseBet =
      (GameState.finalizeRound gen s).currentBet := by
  refine ⟨?_, ?_, ?_, ?_⟩
  · simp [GameState.finalizeRound, hp, hmiss]
  · simp [GameState.finalizeRound, hp, hmiss]
  · simp only [GameState.finalizeRound, hp, if_neg hmiss]
    by_cases hlt : max 0 (if PendingRound.statusAtPlay p = .idle then
        round6 (PendingRound.balance p - PendingRound.betAmount p)
        else PendingRound.balance p) < PendingRound.baseBet p
    · simp only [if_pos hlt]
      exact (min_eq_right (le_of_lt hlt)).symm
    · simp only [if_neg hlt]
      exact (min_eq_left (not_lt.mp hlt)).symm
  · simp [GameState.finalizeRound, hp, hmiss]

/-- Witness for the amended C7, at the concrete missed round of the
counterexample state. -/
theorem miss_settlement_witness :
    (GameState.finalizeRound (fun _ _ _ => 0)
      (GameState.initState (fun _ => "") [] "sv" "cl").playRound).status =
        .idle ∧
    (GameState.finalizeRound (fun _ _ _ => 0)
      (GameState.initState (fun _ => "") [] "sv" "cl").playRound).userBets =
      (GameState.initState (fun _ => "") [] "sv" "cl").playRound.userBets ++
      [{ result := false, price := 0, amount := 25, payout := 0,
         rangeLow := 420, rangeHigh := 1000 }] ∧
    (GameState.finalizeRound (fun _ _ _ => 0)
      (GameState.initState (fun _ => "") [] "sv" "cl").playRound).currentBet =
      min 25 (max 0 (if (Status.idle = Status.idle) then
        round6 ((10000 : ℚ) - 25) else 10000)) ∧
    (GameState.finalizeRound (fun _ _ _ => 0)
      (GameState.initState (fun _ => "") [] "sv" "cl").playRound).baseBet =
    (GameState.finalizeRound (fun _ _ _ => 0)
      (GameState.initState (fun _ => "") [] "sv" "cl").playRound).currentBet :=
  miss_settlement (fun _ _ _ => 0)
    (GameState.initState (fun _ => "") [] "sv" "cl").playRound
    { betAmount := 25, serverSeed := "sv", clientSeed := "cl", nonce := 0,
      rangeLow := 420, rangeHigh := 1000,
      multiplier := multiplierOf 420 1000, baseBet := 25, balance := 10000,
      statusAtPlay := .idle } rfl (by decide)

/-! ## Claim C9: the inverse band-width solver (`handlePayoutChange`,
`src/app.js` lines 1182-1253)

```js
const val = parseFloat(valStr);
if (isNaN(val) || val <= 0) { setPayoutError("Enter valid payout"); return; }
const targetMultiplier = targetPayout / activeBet;
let newSize = Math.round(800 / targetMultiplier);
const calcPayout = (s) => {
  if (s <= 0) return 0;
  const p = s / TICKS;
  const m = Number((0.80 / p).toFixed(6));
  return Number((activeBet * m).toFixed(6));
};
const candidates = [newSize, newSize - 1, newSize + 1];
let bestSize = newSize;
let minDiff = Math.abs(calcPayout(newSize) - targetPayout);
candidates.forEach(s => {
  if (s < 10 || s > 750) return;
  const diff = Math.abs(calcPayout(s) - targetPayout);
  if (diff < minDiff) { minDiff = diff; bestSize = s; }
});
newSize = bestSize;
if (newSize < 10) { newSize = 10; warning = "Max Payout Limit (80x)"; }
else if (newSize > 750) { newSize = 750; warning = "Min Payout Limit (Max 75% range)"; }
```
-/

/-- JavaScript `Math.abs`. -/
def qabs (x : ℚ) : ℚ := if x < 0 then -x else x

/-- `calcPayout` of `handlePayoutChange`: the realized 6-decimal payout
of a band of width `s` at the given stake (0 for nonpositive widths). -/
def calcPayout (activeBet : ℚ) (s : ℤ) : ℚ :=
  if s ≤ 0 then 0
  else
    let p : ℚ := (s : ℚ) / (TICKS : ℚ)
    let m := round6 ((80 / 100) / p)
    round6 (activeBet * m)

/-- One step of the candidate loop: skip widths outside `[10, 750]`,
otherwise keep the width whose realized payout is strictly closer to the
target. -/
def pickBest (activeBet targetPayout : ℚ) (b : ℤ × ℚ) (c : ℤ) : ℤ × ℚ :=
  if c < 10 ∨ 750 < c then b
  else if qabs (calcPayout activeBet c - targetPayout) < b.2 then
    (c, qabs (calcPayout activeBet c - targetPayout))
  else b

/-- The local search of `handlePayoutChange` over
`[newSize, newSize - 1, newSize + 1]`, starting from `newSize` and its
payout distance. -/
def bestSize (activeBet targetPayout : ℚ) (n : ℤ) : ℤ :=
  (([n, n - 1, n + 1]).foldl (pickBest activeBet targetPayout)
    (n, qabs (calcPayout activeBet n - targetPayout))).1

/-- The width computation of `handlePayoutChange`: reject nonpositive
targets ("Enter valid payout") and nonpositive stakes; otherwise solve
`newSize = Math.round(800 / (targetPayout / activeBet))`, refine over
the three candidates, and clamp to `[10, 750]` with a user-facing
warning (not an error) when a bound is hit. -/
def handlePayoutSize (activeBet targetPayout : ℚ) :
    Option (ℤ × Option String) :=
  if targetPayout ≤ 0 then none
  else if activeBet ≤ 0 then none
  else
    let targetMultiplier := targetPayout / activeBet
    let n := jround (800 / targetMultiplier)
    let b := bestSize activeBet targetPayout n
    if b < 10 then some (10, some "Max Payout Limit (80x)")
    else if 750 < b then some (750, some "Min Payout Limit (Max 75% range)")
    else some (b, none)

/-- Counterexample to C9 as stated: the stake `10⁻⁷` is positive and the
width 750 is legal, but the realized payout
`calcPayout 10⁻⁷ 750 = round6(10⁻⁷ · 1.066667)` rounds to 0, so feeding
it back makes `handlePayoutChange` reject the input ("Enter valid
payout") and return no width at all. -/
theorem inverse_solver_counterexample :
    (0 : ℚ) < 1 / 10000000 ∧ (10 : ℤ) ≤ 750 ∧ (750 : ℤ) ≤ 750 ∧
    calcPayout (1 / 10000000) 750 = 0 ∧
    handlePayoutSize (1 / 10000000) (calcPayout (1 / 10000000) 750) =
      none := by
  have hc : calcPayout (1 / 10000000 : ℚ) 750 = 0 := by
    unfold calcPayout TICKS
    norm_num [round6]
  refine ⟨by norm_num, by norm_num, by norm_num, hc, ?_⟩
  rw [hc]
  unfold handlePayoutSize
  norm_num

/-- `qabs` is the usual absolute value. -/
theorem qabs_eq_abs (x : ℚ) : qabs x = |x| := by
  unfold qabs
  split_ifs with h
  · exact (abs_of_neg h).symm
  · exact (abs_of_nonneg (not_lt.mp h)).symm

/-- Two money-grid values less than two units apart are at most one unit
apart. -/
theorem grid_close_diff {a b : ℚ} (ha : Grid a) (hb : Grid b)
    (h : |a - b| < 2 / 1000000) : |a - b| ≤ 1 / 1000000 := by
  obtain ⟨n, rfl⟩ := ha
  obtain ⟨m, rfl⟩ := hb
  have hd : (n : ℚ) / 1000000 - (m : ℚ) / 1000000 =
      ((n - m : ℤ) : ℚ) / 1000000 := by push_cast; ring
  have habs : ∀ z : ℤ, |((z : ℚ)) / 1000000| = ((|z| : ℤ) : ℚ) / 1000000 := by
    intro z
    rw [abs_div, abs_of_pos (by norm_num : (0:ℚ) < 1000000)]
    norm_cast
  rw [hd, habs] at h ⊢
  rw [div_lt_div_iff₀ (by norm_num) (by norm_num)] at h
  rw [div_le_div_iff₀ (by norm_num) (by norm_num)]
  have h2 : (|n - m| : ℤ) * 1000000 < 2 * 1000000 := by exact_mod_cast h
  have h3 : (|n - m| : ℤ) ≤ 1 := by omega
  have h4 : ((|n - m| : ℤ) : ℚ) ≤ 1 := by exact_mod_cast h3
  nlinarith

/-- Every realized payout lies on the money grid. -/
theorem calcPayout_grid (activeBet : ℚ) (s : ℤ) :
    Grid (calcPayout activeBet s) := by
  unfold calcPayout
  split_ifs
  · exact Grid.zero
  · exact grid_round6 _

/-- `calcPayout` at a positive width, in closed form. -/
theorem calcPayout_pos (activeBet : ℚ) (c : ℤ) (hc : 0 < c) :
    calcPayout activeBet c =
      round6 (activeBet * round6 (800 / (c : ℚ))) := by
  have hcne : ((c : ℚ)) ≠ 0 := by
    exact_mod_cast ne_of_gt (show (0:ℚ) < (c:ℚ) by exact_mod_cast hc)
  have heq : (80 / 100 : ℚ) / ((c : ℚ) / ((TICKS : ℕ) : ℚ)) = 800 / (c : ℚ) := by
    rw [show ((TICKS : ℕ) : ℚ) = 1000 by norm_num [TICKS]]
    field_simp
    ring
  simp only [calcPayout]
  rw [if_neg (not_le.mpr hc), heq]

/-- One step of the candidate loop: it preserves the invariant that the
tracked distance is the distance of the tracked width, never increases
the tracked distance, moves only to legal candidates, and is at most the
distance of any legal candidate it inspects. -/
theorem pickBest_spec (A T : ℚ) (b : ℤ × ℚ) (c : ℤ)
    (hb : b.2 = qabs (calcPayout A b.1 - T)) :
    (pickBest A T b c).2 =
      qabs (calcPayout A (pickBest A T b c).1 - T) ∧
    (pickBest A T b c).2 ≤ b.2 ∧
    ((pickBest A T b c).1 = b.1 ∨
      (10 ≤ c ∧ c ≤ 750 ∧ (pickBest A T b c).1 = c)) ∧
    (10 ≤ c → c ≤ 750 →
      (pickBest A T b c).2 ≤ qabs (calcPayout A c - T)) := by
  by_cases h1 : c < 10 ∨ 750 < c
  · have e : pickBest A T b c = b := by
      unfold pickBest; rw [if_pos h1]
    rw [e]
    exact ⟨hb, le_refl _, Or.inl rfl, fun hc1 hc2 =>
      absurd h1 (by push_neg; exact ⟨hc1, hc2⟩)⟩
  · push_neg at h1
    by_cases h2 : qabs (calcPayout A c - T) < b.2
    · have e : pickBest A T b c = (c, qabs (calcPayout A c - T)) := by
        unfold pickBest
        rw [if_neg (by push_neg; exact h1), if_pos h2]
      rw [e]
      exact ⟨rfl, le_of_lt h2, Or.inr ⟨h1.1, h1.2, rfl⟩, fun _ _ => le_refl _⟩
    · have e : pickBest A T b c = b := by
        unfold pickBest
        rw [if_neg (by push_neg; exact h1), if_neg h2]
      rw [e]
      exact ⟨hb, le_refl _, Or.inl rfl, fun _ _ => not_lt.mp h2⟩

/-- The local search: its result is the initial `newSize` or a legal
candidate; its realized distance is at most the initial distance and at
most the distance of every legal candidate. -/
theorem bestSize_spec (A T : ℚ) (n : ℤ) :
    (bestSize A T n = n ∨ (10 ≤ bestSize A T n ∧ bestSize A T n ≤ 750)) ∧
    qabs (calcPayout A (bestSize A T n) - T) ≤
      qabs (calcPayout A n - T) ∧
    (∀ c : ℤ, (c = n ∨ c = n - 1 ∨ c = n + 1) → 10 ≤ c → c ≤ 750 →
      qabs (calcPayout A (bestSize A T n) - T) ≤
        qabs (calcPayout A c - T)) := by
  obtain ⟨e1, d1, o1, m1⟩ :=
    pickBest_spec A T (n, qabs (calcPayout A n - T)) n rfl
  obtain ⟨e2, d2, o2, m2⟩ :=
    pickBest_spec A T (pickBest A T (n, qabs (calcPayout A n - T)) n)
      (n - 1) e1
  obtain ⟨e3, d3, o3, m3⟩ :=
    pickBest_spec A T (pickBest A T
      (pickBest A T (n, qabs (calcPayout A n - T)) n) (n - 1)) (n + 1) e2
  have hbs : bestSize A T n = (pickBest A T (pickBest A T
      (pickBest A T (n, qabs (calcPayout A n - T)) n) (n - 1)) (n + 1)).1 :=
    rfl
  have hval : qabs (calcPayout A (bestSize A T n) - T) =
      (pickBest A T (pickBest A T
        (pickBest A T (n, qabs (calcPayout A n - T)) n) (n - 1)) (n + 1)).2 := by
    rw [hbs, ← e3]
  refine ⟨?_, ?_, ?_⟩
  · rw [hbs]
    rcases o3 with h | h
    · rw [h]
      rcases o2 with h' | h'
      · rw [h']
        rcases o1 with h'' | h''
        · exact Or.inl h''
        · rw [h''.2.2]
          exact Or.inl rfl
      · rw [h'.2.2]
        exact Or.inr ⟨h'.1, h'.2.1⟩
    · rw [h.2.2]
      exact Or.inr ⟨h.1, h.2.1⟩
  · rw [hval]
    calc (pickBest A T (pickBest A T (pickBest A T
          (n, qabs (calcPayout A n - T)) n) (n - 1)) (n + 1)).2
        ≤ _ := d3
      _ ≤ _ := d2
      _ ≤ qabs (calcPayout A n - T) := d1
  · intro c hc hc1 hc2
    rw [hval]
    rcases hc with rfl | rfl | rfl
    · exact (d3.trans d2).trans (m1 hc1 hc2)
    · exact d3.trans (m2 hc1 hc2)
    · exact m3 hc1 hc2

/-- `round6` of anything at least half a unit is at least one unit. -/
theorem round6_ge_unit {x : ℚ} (hx : 1 / 2000000 ≤ x) :
    1 / 1000000 ≤ round6 x := by
  unfold round6
  have h1 : (1 : ℤ) ≤ ⌊x * 1000000 + 1 / 2⌋ := by
    rw [Int.le_floor]
    push_cast
    nlinarith
  have h2 : (1 : ℚ) ≤ (⌊x * 1000000 + 1 / 2⌋ : ℚ) := by exact_mod_cast h1
  linarith

/-- Near window: when the stake is large enough relative to the band
(`(W² + 3W/2)·u·(A+1) < 1200·A` for `u` half a money unit), the solver's
starting point `800·A/T` lies within `3/2` of the original width. -/
theorem near_window (A W T Mw : ℚ) (hW1 : 10 ≤ W) (hW2 : W ≤ 750)
    (hA : 1 / 1000000 ≤ A)
    (hM1 : 800 / W - 1 / 2000000 < Mw) (hM2 : Mw ≤ 800 / W + 1 / 2000000)
    (hT1 : A * Mw - 1 / 2000000 < T) (hT2 : T ≤ A * Mw + 1 / 2000000)
    (hT0 : 0 < T)
    (hcond : (W ^ 2 + (3 / 2) * W) * (1 / 2000000) * (A + 1) < 1200 * A) :
    W - 3 / 2 < 800 * A / T ∧ 800 * A / T < W + 3 / 2 := by
  have hW0 : 0 < W := by linarith
  have hA0 : 0 < A := by linarith
  have hWM2 : W * Mw ≤ 800 + W * (1 / 2000000) := by
    have := mul_le_mul_of_nonneg_left hM2 (le_of_lt hW0)
    have hWd : W * (800 / W) = 800 := by field_simp
    nlinarith
  have hWM1 : 800 - W * (1 / 2000000) < W * Mw := by
    have := mul_lt_mul_of_pos_left hM1 hW0
    have hWd : W * (800 / W) = 800 := by field_simp
    nlinarith
  have hup : W * T ≤ 800 * A + W * (1 / 2000000) * (A + 1) := by
    have h1 : W * T ≤ W * (A * Mw) + W * (1 / 2000000) := by nlinarith
    have h2 : A * (W * Mw) ≤ A * (800 + W * (1 / 2000000)) :=
      mul_le_mul_of_nonneg_left hWM2 (le_of_lt hA0)
    nlinarith
  have hlo : 800 * A - W * (1 / 2000000) * (A + 1) < W * T := by
    have h1 : W * (A * Mw) - W * (1 / 2000000) < W * T := by nlinarith
    have h2 : A * (800 - W * (1 / 2000000)) ≤ A * (W * Mw) :=
      mul_le_mul_of_nonneg_left (le_of_lt hWM1) (le_of_lt hA0)
    nlinarith
  have hkey2 : W * (1 / 2000000) * (A + 1) < (3 / 2) * T := by
    have h3 : (3 / 2) * (W * T) > 1200 * A - (3 / 2) * (W * (1 / 2000000) * (A + 1)) := by
      nlinarith
    nlinarith
  constructor
  · rw [lt_div_iff₀ hT0]
    nlinarith
  · rw [div_lt_iff₀ hT0]
    nlinarith

set_option maxHeartbeats 6400000 in
/-- Coarse bound: when the stake is so small that the drift condition
fails, the realized payout of the solver's starting point is already
within two half-units of the target — the payout granularity at these
stakes is below the rounding unit. -/
theorem coarse_bound (A W T : ℚ) (N : ℤ)
    (hW1 : 10 ≤ W) (hW2 : W ≤ 750)
    (hA : 1 / 1000000 ≤ A)
    (hT1 : 1 / 1000000 ≤ T)
    (hTub : T ≤ 800 * A / W + (1 / 2000000) * (A + 1))
    (hN10 : 10 ≤ N)
    (hNy1 : (N : ℚ) ≤ 800 * A / T + 1 / 2)
    (hNy2 : 800 * A / T - 1 / 2 < (N : ℚ))
    (hnc : 1200 * A ≤ (W ^ 2 + (3 / 2) * W) * (1 / 2000000) * (A + 1)) :
    qabs (calcPayout A N - T) < 2 / 1000000 := by
  have hW0 : 0 < W := by linarith
  have hA0 : 0 < A := by linarith
  have hT0 : 0 < T := by linarith
  have hNQ : (10 : ℚ) ≤ (N : ℚ) := by exact_mod_cast hN10
  have hN0 : (0 : ℚ) < (N : ℚ) := by linarith
  have hq : W ^ 2 + (3 / 2) * W ≤ 563625 := by
    nlinarith [mul_le_mul_of_nonneg_left hW2 (le_of_lt hW0)]
  have hq2 : (W ^ 2 + (3 / 2) * W) * ((1 / 2000000) * (A + 1)) ≤
      563625 * ((1 / 2000000) * (A + 1)) :=
    mul_le_mul_of_nonneg_right hq (by positivity)
  have hnc' : 1200 * A ≤ 563625 * ((1 / 2000000) * (A + 1)) := by
    nlinarith [hnc, hq2]
  have hA12 : A ≤ 1 / 2 := by linarith
  -- pieces of calcPayout A N
  have hcp : calcPayout A N = round6 (A * round6 (800 / (N : ℚ))) :=
    calcPayout_pos A N (by omega)
  set MN := round6 (800 / (N : ℚ)) with hMN
  have hMN1 : 800 / (N : ℚ) - 1 / 2000000 < MN := round6_gt _
  have hMN2 : MN ≤ 800 / (N : ℚ) + 1 / 2000000 := round6_le _
  -- |800 A / N - T| ≤ T / (2 N)
  have hyN : |800 * A / T - (N : ℚ)| ≤ 1 / 2 :=
    abs_le.mpr ⟨by linarith, by linarith⟩
  have habs1 : |800 * A / (N : ℚ) - T| ≤ T / (2 * (N : ℚ)) := by
    have hrepr : 800 * A / (N : ℚ) - T =
        T * (800 * A / T - (N : ℚ)) / (N : ℚ) := by
      field_simp
      ring
    rw [hrepr, abs_div, abs_mul, abs_of_pos hT0, abs_of_pos hN0]
    calc T * |800 * A / T - (N : ℚ)| / (N : ℚ)
        ≤ T * (1 / 2) / (N : ℚ) := by gcongr
      _ = T / (2 * (N : ℚ)) := by ring
  -- the key smallness: T < 5u·N
  have hNT : 800 * A - T / 2 < (N : ℚ) * T := by
    have h := mul_lt_mul_of_pos_right hNy2 hT0
    have hyTT : 800 * A / T * T = 800 * A := by field_simp
    nlinarith
  set β := (1 / 2000000 : ℚ) * (A + 1) with hβ
  have hβpos : 0 < β := by rw [hβ]; positivity
  have hβle : β ≤ (3 / 4) * A := by rw [hβ]; linarith
  have hβge : (1 / 2000000 : ℚ) ≤ β := by rw [hβ]; linarith
  have hTW : T * W ≤ 800 * A + β * W := by
    have h := mul_le_mul_of_nonneg_right hTub (le_of_lt hW0)
    rw [add_mul, div_mul_cancel₀ _ (ne_of_gt hW0)] at h
    exact h
  have hAβ : 1200 * A ≤ (23 / 20) * W ^ 2 * β := by
    have h1 : W ^ 2 + (3 / 2) * W ≤ (23 / 20) * W ^ 2 := by
      nlinarith [mul_le_mul_of_nonneg_left hW1 (le_of_lt hW0)]
    have h3 : (W ^ 2 + (3 / 2) * W) * β ≤ (23 / 20) * W ^ 2 * β :=
      mul_le_mul_of_nonneg_right h1 (le_of_lt hβpos)
    have h4 : 1200 * A ≤ (W ^ 2 + (3 / 2) * W) * β := by
      calc 1200 * A
          ≤ (W ^ 2 + (3 / 2) * W) * (1 / 2000000) * (A + 1) := hnc
        _ = (W ^ 2 + (3 / 2) * W) * β := by rw [hβ]; ring
    linarith
  have hTW0 : 0 ≤ T * W := by positivity
  have hTW2 : (T * W) ^ 2 ≤ (800 * A + β * W) ^ 2 := by
    exact pow_le_pow_left₀ hTW0 hTW 2
  have hTW2' : (T * W) ^ 2 ≤
      640000 * A ^ 2 + 1600 * (A * β * W) + β ^ 2 * W ^ 2 := by
    have hr : (800 * A + β * W) ^ 2 =
        640000 * A ^ 2 + 1600 * (A * β * W) + β ^ 2 * W ^ 2 := by ring
    linarith [hr ▸ hTW2]
  have e1 : 640000 * A ^ 2 ≤ (1840 / 3) * (A * β * W ^ 2) := by
    have h := mul_le_mul_of_nonneg_left hAβ (le_of_lt hA0)
    nlinarith [h]
  have eW : (0 : ℚ) ≤ W ^ 2 - 10 * W := by nlinarith
  have eAβW : (0 : ℚ) ≤ A * β := by positivity
  have e2 : 1600 * (A * β * W) ≤ 160 * (A * β * W ^ 2) := by
    nlinarith [mul_nonneg eAβW eW]
  have e3 : β ^ 2 * W ^ 2 ≤ (3 / 4) * (A * β * W ^ 2) := by
    nlinarith [mul_le_mul_of_nonneg_right hβle
      (mul_nonneg (le_of_lt hβpos) (sq_nonneg W))]
  have e4 : (5 / 2) * β * T * W ^ 2 ≤ (1615 / 8) * (A * β * W ^ 2) := by
    have hc0 : (0 : ℚ) ≤ (5 / 2) * β * W :=  by positivity
    have h1 := mul_le_mul_of_nonneg_left hTW hc0
    -- h1 : (5/2)βW (TW) ≤ (5/2)βW (800A + βW)
    have h3 : 2000 * (A * β * W) ≤ 200 * (A * β * W ^ 2) := by
      nlinarith [mul_nonneg eAβW eW]
    have h4 : (5 / 2) * (β * β) * W ^ 2 ≤ (15 / 8) * (A * β * W ^ 2) := by
      nlinarith [mul_le_mul_of_nonneg_right hβle
        (mul_nonneg (le_of_lt hβpos) (sq_nonneg W))]
    nlinarith [h1]
  have hAβW0 : 0 < A * β * W ^ 2 := by positivity
  have hgoalW : (T ^ 2 + (5 / 2) * β * T) * W ^ 2 <
      (8000 / 3) * β * A * W ^ 2 := by
    have hexp : (T ^ 2 + (5 / 2) * β * T) * W ^ 2 =
        (T * W) ^ 2 + (5 / 2) * β * T * W ^ 2 := by ring
    have hsum : (T * W) ^ 2 + (5 / 2) * β * T * W ^ 2 ≤
        (23423 / 24) * (A * β * W ^ 2) := by linarith
    have hlast : (23423 / 24) * (A * β * W ^ 2) <
        (8000 / 3) * β * A * W ^ 2 := by linarith [hAβW0]
    rw [hexp]
    exact lt_of_le_of_lt hsum hlast
  have hP' : T ^ 2 + (5 / 2) * β * T < (8000 / 3) * β * A := by
    have hW2pos : (0 : ℚ) < W ^ 2 := by positivity
    exact lt_of_mul_lt_mul_right hgoalW (le_of_lt hW2pos)
  have hP : T ^ 2 + (5 / 2) * (1 / 2000000) * T < 4000 * (1 / 2000000) * A := by
    have h1 : (5 / 2) * (1 / 2000000) * T ≤ (5 / 2) * β * T := by
      have := mul_le_mul_of_nonneg_right hβge (le_of_lt hT0)
      linarith
    have h2 : (8000 / 3) * β * A ≤ 4000 * (1 / 2000000) * A := by
      rw [hβ]
      nlinarith [mul_nonneg (le_of_lt hA0) (by linarith : (0 : ℚ) ≤ 1 / 2 - A)]
    linarith
  have hT5uN : T < 5 * (1 / 2000000) * (N : ℚ) := by
    have h0 := mul_lt_mul_of_pos_left hNT
      (by norm_num : (0 : ℚ) < 5 * (1 / 2000000))
    have h1 : T * T < (5 * (1 / 2000000) * (N : ℚ)) * T := by nlinarith [h0, hP]
    exact lt_of_mul_lt_mul_right h1 (le_of_lt hT0)
  have hfrac : T / (2 * (N : ℚ)) < 5 / 4 * (1 / 1000000) := by
    rw [div_lt_iff₀ (by positivity : (0 : ℚ) < 2 * (N : ℚ))]
    linarith [hT5uN]
  -- assemble the triangle inequality
  have t1 : |round6 (A * MN) - A * MN| ≤ 1 / 2000000 :=
    abs_le.mpr ⟨by linarith [round6_gt (A * MN)], by linarith [round6_le (A * MN)]⟩
  have t2 : |A * MN - 800 * A / (N : ℚ)| ≤ 1 / 4000000 := by
    have hfac : A * MN - 800 * A / (N : ℚ) = A * (MN - 800 / (N : ℚ)) := by
      ring
    rw [hfac, abs_mul, abs_of_pos hA0]
    have hm : |MN - 800 / (N : ℚ)| ≤ 1 / 2000000 :=
      abs_le.mpr ⟨by linarith, by linarith⟩
    nlinarith
  rw [hcp, qabs_eq_abs]
  calc |round6 (A * MN) - T|
      ≤ |round6 (A * MN) - A * MN| + |A * MN - T| := abs_sub_le _ _ _
    _ ≤ |round6 (A * MN) - A * MN| +
        (|A * MN - 800 * A / (N : ℚ)| + |800 * A / (N : ℚ) - T|) := by
          have := abs_sub_le (A * MN) (800 * A / (N : ℚ)) T
          linarith
    _ < 2 / 1000000 := by linarith

/-- Clamp bound: if the local search hands the clamp a width beyond 750,
the stake is tiny and the realized payout at the clamped width 750 is
still within two half-units of the target. -/
theorem clamp_bound (A T : ℚ)
    (hA : 1 / 1000000 ≤ A) (hA12 : A ≤ 1 / 2)
    (hTl : A * (16 / 15 - 1 / 2000000) - 1 / 2000000 ≤ T)
    (hTu : 1501 * T ≤ 1600 * A) :
    qabs (calcPayout A 750 - T) < 2 / 1000000 := by
  have hA0 : 0 < A := by linarith
  have hcp : calcPayout A 750 = round6 (A * round6 (800 / ((750 : ℤ) : ℚ))) :=
    calcPayout_pos A 750 (by norm_num)
  have hcast : (((750 : ℤ) : ℚ)) = 750 := by norm_num
  rw [hcast] at hcp
  set M750 := round6 (800 / (750 : ℚ)) with hM750
  have hM1 : 800 / (750 : ℚ) - 1 / 2000000 < M750 := round6_gt _
  have hM2 : M750 ≤ 800 / (750 : ℚ) + 1 / 2000000 := round6_le _
  have hMv : (800 : ℚ) / 750 = 16 / 15 := by norm_num
  rw [hMv] at hM1 hM2
  have hTlt : T < A * (16 / 15) := by nlinarith
  have t1 : |round6 (A * M750) - A * M750| ≤ 1 / 2000000 :=
    abs_le.mpr ⟨by linarith [round6_gt (A * M750)],
      by linarith [round6_le (A * M750)]⟩
  have t2 : |A * M750 - A * (16 / 15)| ≤ A * (1 / 2000000) := by
    have hfac : A * M750 - A * (16 / 15) = A * (M750 - 16 / 15) := by ring
    rw [hfac, abs_mul, abs_of_pos hA0]
    have hm : |M750 - 16 / 15| ≤ 1 / 2000000 :=
      abs_le.mpr ⟨by linarith, by linarith⟩
    nlinarith
  have t3 : |A * (16 / 15) - T| ≤ A * (1 / 2000000) + 1 / 2000000 := by
    rw [abs_of_pos (by linarith : (0 : ℚ) < A * (16 / 15) - T)]
    linarith
  rw [hcp, qabs_eq_abs]
  calc |round6 (A * M750) - T|
      ≤ |round6 (A * M750) - A * M750| + |A * M750 - T| := abs_sub_le _ _ _
    _ ≤ |round6 (A * M750) - A * M750| +
        (|A * M750 - A * (16 / 15)| + |A * (16 / 15) - T|) := by
          have := abs_sub_le (A * M750) (A * (16 / 15)) T
          linarith
    _ < 2 / 1000000 := by nlinarith


set_option maxHeartbeats 1600000 in
/-- C9 as amended: for every legal band width `w ∈ [10, 750]` and every
positive stake on the engine's money grid (a positive whole multiple of
`10⁻⁶`, which is every stake the engine can actually hold), feeding the
realized payout `calcPayout stake w` back into the inverse band-width
solver returns a width inside the legal bounds `[10, 750]` — the solver
searching locally over `{newSize-1, newSize, newSize+1}` and clamping to
the bounds with a user-facing warning rather than a hard error — whose
realized payout differs from the fed target by at most one rounding unit
`10⁻⁶`.  (For positive stakes below the money grid the realized payout
can round to 0, and the solver then rejects the input outright — see the
counterexample.) -/
theorem inverse_payout_roundtrip (k : ℕ) (w : ℤ) (hk : 1 ≤ k)
    (hw1 : 10 ≤ w) (hw2 : w ≤ 750) :
    ∃ F warn,
      handlePayoutSize ((k : ℚ) / 1000000)
          (calcPayout ((k : ℚ) / 1000000) w) = some (F, warn) ∧
      10 ≤ F ∧ F ≤ 750 ∧
      qabs (calcPayout ((k : ℚ) / 1000000) F -
        calcPayout ((k : ℚ) / 1000000) w) ≤ 1 / 1000000 := by
  set A : ℚ := (k : ℚ) / 1000000 with hA_def
  have hA : 1 / 1000000 ≤ A := by
    rw [hA_def]
    have h1 : (1 : ℚ) ≤ (k : ℚ) := by exact_mod_cast hk
    linarith
  have hA0 : (0 : ℚ) < A := lt_of_lt_of_le (by norm_num) hA
  have hW1 : (10 : ℚ) ≤ (w : ℚ) := by exact_mod_cast hw1
  have hW2 : ((w : ℤ) : ℚ) ≤ 750 := by exact_mod_cast hw2
  have hW0 : (0 : ℚ) < (w : ℚ) := by linarith
  have hcpw : calcPayout A w = round6 (A * round6 (800 / (w : ℚ))) :=
    calcPayout_pos A w (by omega)
  have hM80 : 800 / (w : ℚ) ≤ 80 := by
    rw [div_le_iff₀ hW0]; linarith
  have hM16 : 16 / 15 ≤ 800 / (w : ℚ) := by
    rw [le_div_iff₀ hW0]; linarith
  have hMw1 : 800 / (w : ℚ) - 1 / 2000000 < round6 (800 / (w : ℚ)) :=
    round6_gt _
  have hMw2 : round6 (800 / (w : ℚ)) ≤ 800 / (w : ℚ) + 1 / 2000000 :=
    round6_le _
  have hMwpos : (0 : ℚ) < round6 (800 / (w : ℚ)) := by linarith
  have hT_lo : A * round6 (800 / (w : ℚ)) - 1 / 2000000 <
      round6 (A * round6 (800 / (w : ℚ))) := round6_gt _
  have hT_hi : round6 (A * round6 (800 / (w : ℚ))) ≤
      A * round6 (800 / (w : ℚ)) + 1 / 2000000 := round6_le _
  have hAM_lo : A * (16 / 15 - 1 / 2000000) ≤ A * round6 (800 / (w : ℚ)) :=
    mul_le_mul_of_nonneg_left (by linarith) (le_of_lt hA0)
  have hAM_big : 1 / 2000000 ≤ A * round6 (800 / (w : ℚ)) := by
    have h2 : (1 / 1000000 : ℚ) * (16 / 15 - 1 / 2000000) ≤
        A * (16 / 15 - 1 / 2000000) :=
      mul_le_mul_of_nonneg_right hA (by norm_num)
    nlinarith
  have hT1 : 1 / 1000000 ≤ round6 (A * round6 (800 / (w : ℚ))) :=
    round6_ge_unit hAM_big
  have hT0 : (0 : ℚ) < round6 (A * round6 (800 / (w : ℚ))) := by linarith
  have hAM_hi : A * round6 (800 / (w : ℚ)) ≤ A * (80 + 1 / 2000000) :=
    mul_le_mul_of_nonneg_left (by linarith) (le_of_lt hA0)
  have hT81 : round6 (A * round6 (800 / (w : ℚ))) ≤ 81 * A := by nlinarith
  set T : ℚ := round6 (A * round6 (800 / (w : ℚ))) with hT_def
  -- solver starting point
  have hy95 : (19 / 2 : ℚ) ≤ 800 * A / T := by
    rw [le_div_iff₀ hT0]; nlinarith
  have hNy1 : ((jround (800 * A / T) : ℤ) : ℚ) ≤ 800 * A / T + 1 / 2 := by
    unfold jround; exact Int.floor_le _
  have hNy2 : 800 * A / T - 1 / 2 < ((jround (800 * A / T) : ℤ) : ℚ) := by
    unfold jround
    have := Int.lt_floor_add_one (800 * A / T + 1 / 2)
    push_cast at this ⊢
    linarith
  have hN10 : 10 ≤ jround (800 * A / T) := by
    unfold jround
    rw [Int.le_floor]
    push_cast
    linarith
  -- the returned width shape
  have hTA : (800 : ℚ) / (T / A) = 800 * A / T := div_div_eq_mul_div 800 T A
  have hHP : handlePayoutSize A T =
      (if bestSize A T (jround (800 * A / T)) < 10 then
        some (10, some "Max Payout Limit (80x)")
      else if 750 < bestSize A T (jround (800 * A / T)) then
        some (750, some "Min Payout Limit (Max 75% range)")
      else some (bestSize A T (jround (800 * A / T)), none)) := by
    simp only [handlePayoutSize]
    rw [if_neg (not_le.mpr hT0), if_neg (not_le.mpr hA0), hTA]
  obtain ⟨hpos, hinit, hany⟩ := bestSize_spec A T (jround (800 * A / T))
  have hB10 : 10 ≤ bestSize A T (jround (800 * A / T)) := by
    rcases hpos with h | h
    · rw [h]; exact hN10
    · exact h.1
  -- distance to the target at the original width is zero
  have hz : qabs (calcPayout A w - T) = 0 := by
    rw [hT_def] at hcpw ⊢
    rw [hcpw]
    simp [qabs]
  -- the near-window condition split
  by_cases hB750 : bestSize A T (jround (800 * A / T)) ≤ 750
  · refine ⟨bestSize A T (jround (800 * A / T)), none, ?_, hB10, hB750, ?_⟩
    · rw [show calcPayout A w = T from hcpw, hHP, if_neg (not_lt.mpr hB10),
        if_neg (not_lt.mpr hB750)]
    · rw [show calcPayout A w = T from hcpw]
      by_cases hcond : ((w : ℚ) ^ 2 + (3 / 2) * (w : ℚ)) * (1 / 2000000) *
          (A + 1) < 1200 * A
      · -- near case: w is among the candidates
        obtain ⟨hyl, hyr⟩ := near_window A (w : ℚ) T (round6 (800 / (w : ℚ)))
          hW1 hW2 hA hMw1 hMw2 (hT_def ▸ hT_lo) (hT_def ▸ hT_hi) hT0 hcond
        have hNw1 : jround (800 * A / T) ≤ w + 1 := by
          unfold jround
          have h := Int.floor_lt.mpr (show 800 * A / T + 1 / 2 <
              ((w + 2 : ℤ) : ℚ) by push_cast; linarith)
          omega
        have hNw2 : w - 1 ≤ jround (800 * A / T) := by
          unfold jround
          rw [Int.le_floor]
          push_cast
          linarith
        have hcand : w = jround (800 * A / T) ∨
            w = jround (800 * A / T) - 1 ∨ w = jround (800 * A / T) + 1 := by
          omega
        have hle := hany w hcand hw1 hw2
        have hnn : 0 ≤ qabs (calcPayout A
            (bestSize A T (jround (800 * A / T))) - T) := by
          rw [qabs_eq_abs]; exact abs_nonneg _
        have h0 : qabs (calcPayout A
            (bestSize A T (jround (800 * A / T))) - T) = 0 :=
          le_antisymm (hz ▸ hle) hnn
        rw [h0]
        norm_num
      · -- coarse case
        push_neg at hcond
        have hTub : T ≤ 800 * A / (w : ℚ) + (1 / 2000000) * (A + 1) := by
          have h1 : A * round6 (800 / (w : ℚ)) ≤
              A * (800 / (w : ℚ) + 1 / 2000000) :=
            mul_le_mul_of_nonneg_left hMw2 (le_of_lt hA0)
          have h2 : A * (800 / (w : ℚ)) = 800 * A / (w : ℚ) := by ring
          rw [hT_def]
          nlinarith
        have hd := coarse_bound A (w : ℚ) T (jround (800 * A / T))
          hW1 hW2 hA hT1 hTub hN10 hNy1 hNy2 hcond
        have hlt : qabs (calcPayout A
            (bestSize A T (jround (800 * A / T))) - T) < 2 / 1000000 :=
          lt_of_le_of_lt (by
            have := hinit
            calc qabs (calcPayout A (bestSize A T (jround (800 * A / T))) - T)
                ≤ qabs (calcPayout A (jround (800 * A / T)) - T) := hinit
              _ ≤ qabs (calcPayout A (jround (800 * A / T)) - T) := le_refl _)
            hd
        rw [qabs_eq_abs] at hlt ⊢
        exact grid_close_diff (calcPayout_grid A _)
          (hT_def ▸ grid_round6 (A * round6 (800 / (w : ℚ)))) hlt
  · -- clamped to 750
    have hBN : bestSize A T (jround (800 * A / T)) = jround (800 * A / T) := by
      rcases hpos with h | h
      · exact h
      · exact absurd h.2 hB750
    have hN751 : 751 ≤ jround (800 * A / T) := by omega
    refine ⟨750, some "Min Payout Limit (Max 75% range)", ?_, by norm_num,
      by norm_num, ?_⟩
    · rw [show calcPayout A w = T from hcpw, hHP, if_neg (not_lt.mpr hB10),
        if_pos (by omega)]
    · rw [show calcPayout A w = T from hcpw]
      have h751 : (751 : ℚ) ≤ ((jround (800 * A / T) : ℤ) : ℚ) := by
        exact_mod_cast hN751
      have hTu : 1501 * T ≤ 1600 * A := by
        have hyge : (1501 / 2 : ℚ) ≤ 800 * A / T := by linarith
        rw [le_div_iff₀ hT0] at hyge
        linarith
      by_cases hcond : ((w : ℚ) ^ 2 + (3 / 2) * (w : ℚ)) * (1 / 2000000) *
          (A + 1) < 1200 * A
      · -- near case forces w = 750
        obtain ⟨hyl, hyr⟩ := near_window A (w : ℚ) T (round6 (800 / (w : ℚ)))
          hW1 hW2 hA hMw1 hMw2 (hT_def ▸ hT_lo) (hT_def ▸ hT_hi) hT0 hcond
        have hNw1 : jround (800 * A / T) ≤ w + 1 := by
          unfold jround
          have h := Int.floor_lt.mpr (show 800 * A / T + 1 / 2 <
              ((w + 2 : ℤ) : ℚ) by push_cast; linarith)
          omega
        have hw750 : w = 750 := by omega
        rw [hw750] at hcpw
        rw [show calcPayout A 750 = T from hcpw]
        simp [qabs]
      · -- coarse clamp
        push_neg at hcond
        have hq : (w : ℚ) ^ 2 + (3 / 2) * (w : ℚ) ≤ 563625 := by
          nlinarith [mul_le_mul_of_nonneg_left hW2 (le_of_lt hW0)]
        have hq2 : ((w : ℚ) ^ 2 + (3 / 2) * (w : ℚ)) * ((1 / 2000000) * (A + 1)) ≤
            563625 * ((1 / 2000000) * (A + 1)) :=
          mul_le_mul_of_nonneg_right hq (by positivity)
        have hnc' : 1200 * A ≤ 563625 * ((1 / 2000000) * (A + 1)) := by
          nlinarith [hcond, hq2]
        have hA12 : A ≤ 1 / 2 := by linarith
        have hTl : A * (16 / 15 - 1 / 2000000) - 1 / 2000000 ≤ T := by
          rw [hT_def]
          linarith
        have hd := clamp_bound A T hA hA12 hTl hTu
        rw [qabs_eq_abs] at hd ⊢
        exact grid_close_diff (calcPayout_grid A _)
          (hT_def ▸ grid_round6 (A * round6 (800 / (w : ℚ)))) hd

/-- Witness for the amended C9: stake 25 (`k = 25000000` micro-units) and
width 100. -/
theorem inverse_payout_roundtrip_witness :
    ∃ F warn,
      handlePayoutSize ((25000000 : ℕ) / 1000000)
          (calcPayout ((25000000 : ℕ) / 1000000) 100) = some (F, warn) ∧
      10 ≤ F ∧ F ≤ 750 ∧
      qabs (calcPayout ((25000000 : ℕ) / 1000000) F -
        calcPayout ((25000000 : ℕ) / 1000000) 100) ≤ 1 / 1000000 :=
  inverse_payout_roundtrip 25000000 100 (by norm_num) (by norm_num)
    (by norm_num)

/-! ## Claim C10: inclusive win interval and its size -/

/-- C10: A resolved round is won exactly when
`low ≤ tick ∧ tick ≤ high` for the staked range — both endpoints
inclusive — so the winning set contains `high - low + 1` of the 1001
possible tick values `0, ..., 1000`: one more outcome than the band
width `high - low` that prices the multiplier over a 1000-tick space
(`size = max 1 (high - low)` in `multiplierOf`). -/
theorem win_iff_inclusive (gen : String → String → ℕ → ℕ) (s : GameState)
    (p : PendingRound) (hp : s.pending = some p) :
    ((GameState.finalizeRound gen s).status = .wonStreak ↔
      PendingRound.rangeLow p ≤
        gen (PendingRound.serverSeed p) (PendingRound.clientSeed p)
          (PendingRound.nonce p) ∧
      gen (PendingRound.serverSeed p) (PendingRound.clientSeed p)
        (PendingRound.nonce p) ≤ PendingRound.rangeHigh p) ∧
    ∀ low high : ℕ, low ≤ high → high ≤ 1000 →
      ((Finset.range 1001).filter fun t => low ≤ t ∧ t ≤ high).card =
        high - low + 1 ∧
      (low < high → high - low + 1 = (max 1 (high - low)) + 1) := by
  constructor
  · by_cases hwin : PendingRound.rangeLow p ≤
        gen (PendingRound.serverSeed p) (PendingRound.clientSeed p)
          (PendingRound.nonce p) ∧
        gen (PendingRound.serverSeed p) (PendingRound.clientSeed p)
          (PendingRound.nonce p) ≤ PendingRound.rangeHigh p
    · simp only [GameState.finalizeRound, hp, if_pos hwin]
      simpa using hwin
    · simp only [GameState.finalizeRound, hp, if_neg hwin]
      simpa using hwin
  · intro low high hlh hh
    constructor
    · have hIcc : ((Finset.range 1001).filter fun t => low ≤ t ∧ t ≤ high) =
          Finset.Icc low high := by
        ext t
        simp only [Finset.mem_filter, Finset.mem_range, Finset.mem_Icc]
        constructor
        · rintro ⟨-, hl, hr⟩; exact ⟨hl, hr⟩
        · rintro ⟨hl, hr⟩; exact ⟨by omega, hl, hr⟩
      rw [hIcc, Nat.card_Icc]
      omega
    · intro hlt
      rw [max_eq_right (by omega : 1 ≤ high - low)]

/-- Witness for C10, at the concrete pending round of the initial play:
range `[420, 1000]`, tick 0, a miss, so the status is not `wonStreak`. -/
theorem win_iff_inclusive_witness :
    (((GameState.finalizeRound (fun _ _ _ => 0)
      (GameState.initState (fun _ => "") [] "sv" "cl").playRound).status =
        .wonStreak ↔ (420 ≤ 0 ∧ 0 ≤ 1000)) ∧
    ∀ low high : ℕ, low ≤ high → high ≤ 1000 →
      ((Finset.range 1001).filter fun t => low ≤ t ∧ t ≤ high).card =
        high - low + 1 ∧
      (low < high → high - low + 1 = (max 1 (high - low)) + 1)) :=
  win_iff_inclusive (fun _ _ _ => 0)
    (GameState.initState (fun _ => "") [] "sv" "cl").playRound
    { betAmount := 25, serverSeed := "sv", clientSeed := "cl", nonce := 0,
      rangeLow := 420, rangeHigh := 1000,
      multiplier := multiplierOf 420 1000, baseBet := 25, balance := 10000,
      statusAtPlay := .idle } rfl

end Game
